import Mathlib

/-!
# Verification of the roster assignment engine (`src/data.js`)

A shallow embedding of `src/data.js` and theorems about it.

Conventions of the embedding:

* JavaScript compares objects by reference (`===`, `Array.prototype.includes`,
  `Array.prototype.indexOf`).  A `Player` record carries a field `ref`, the identity of the
  object, next to the fields the constructor sets; equality of records is then equality of
  objects, and two records that differ only in `ref` are two objects with the same contents.
* A `Map` is an association list in insertion order.  `Map.prototype.get` answers `undefined`
  for a missing key: the answer has type `Option (Option Player)`, where `none` is `undefined`,
  `some none` is `null` and `some (some p)` is the player object `p`.
* A function that can throw returns `Except JsError _`.
* `Array.prototype.sort` is engine code.  The engine is a parameter of the functions that sort
  (`ArraySort`); `v8ArraySort` is the engine of Node.js and Chrome.  `insertionArraySort` is
  the insertion sort that V8 ran on short arrays before its version 7.0.
* `console.debug` calls have no effect on the results and are left out.
-/

namespace EspnAutopick

/-! ## Values -/

/-- Exceptions raised by the program. -/
inductive JsError where
  /-- An `Error` object thrown by `throw new Error(msg)`. -/
  | error (msg : String)
  /-- The `TypeError` of reading a property of `undefined`. -/
  | typeError
deriving DecidableEq, Repr

deriving instance DecidableEq for Except

def SLOT_TYPE_POINT_GUARD : String := "PG"
def SLOT_TYPE_SHOOTING_GUARD : String := "SG"
def SLOT_TYPE_SMALL_FORWARD : String := "SF"
def SLOT_TYPE_POWER_FORWARD : String := "PF"
def SLOT_TYPE_CENTER : String := "C"
def SLOT_TYPE_GUARD : String := "G"
def SLOT_TYPE_FORWARD : String := "F"
def SLOT_TYPE_UTIL : String := "UTIL"

def SPECIFIC_SLOT_TYPES : List String :=
  [SLOT_TYPE_POINT_GUARD, SLOT_TYPE_SHOOTING_GUARD, SLOT_TYPE_SMALL_FORWARD,
   SLOT_TYPE_POWER_FORWARD, SLOT_TYPE_CENTER]

def GENERIC_SLOT_TYPES : List String :=
  [SLOT_TYPE_GUARD, SLOT_TYPE_FORWARD, SLOT_TYPE_UTIL]

/-- Class `ActivePlayerSlot`. -/
structure ActivePlayerSlot where
  slotId : Nat
  slotType : String
deriving DecidableEq, Repr

def PLAYER_HEALTH_HEALTHY : String := "HEALTHY"
def PLAYER_HEALTH_DAYTODAY : String := "DTD"
def PLAYER_HEALTH_OUT : String := "O"
def PLAYER_HEALTH_SUSPENDED : String := "SSPD"

def PLAYER_HEALTH_LEVELS : List String :=
  [PLAYER_HEALTH_HEALTHY, PLAYER_HEALTH_DAYTODAY, PLAYER_HEALTH_OUT, PLAYER_HEALTH_SUSPENDED]

/-- Class `Player`.  `ref` is the identity of the object; `opponent` is `none` for `null`. -/
structure Player where
  ref : Nat
  playerId : Nat
  name : String
  positions : List String
  health : String
  opponent : Option String
deriving DecidableEq, Repr

/-- The result of `Array.prototype.indexOf` on strings: the first index, or `-1`. -/
def jsIndexOf (xs : List String) (x : String) : Int :=
  if xs.indexOf x < xs.length then (xs.indexOf x : Int) else -1

/-- Getter `Player.isPlaying`: `this.opponent !== null`. -/
def Player.isPlaying (p : Player) : Bool :=
  p.opponent.isSome

/-- Method `Player.compareHealth`. -/
def Player.compareHealth (p otherPlayer : Player) : Bool :=
  decide (jsIndexOf PLAYER_HEALTH_LEVELS p.health
    ≥ jsIndexOf PLAYER_HEALTH_LEVELS otherPlayer.health)

/-- Class `RosterState`.  `mapping` is the `Map` from slot id to player or `null`. -/
structure RosterState where
  slots : List ActivePlayerSlot
  players : List Player
  mapping : List (Nat × Option Player)
deriving DecidableEq, Repr

/-- Method `Map.prototype.get`. -/
def mapGet (m : List (Nat × Option Player)) (key : Nat) : Option (Option Player) :=
  match m with
  | [] => none
  | (k, v) :: rest => if k = key then some v else mapGet rest key

/-- Method `Map.prototype.set`: the value of an existing key is replaced in place, a new key is
appended. -/
def mapSet (m : List (Nat × Option Player)) (key : Nat) (value : Option Player) :
    List (Nat × Option Player) :=
  match m with
  | [] => [(key, value)]
  | (k, v) :: rest => if k = key then (k, value) :: rest else (k, v) :: mapSet rest key value

/-- Getter `RosterState.hasRoomForEveryone`. -/
def RosterState.hasRoomForEveryone (rs : RosterState) : Bool :=
  decide ((rs.players.filter fun p => p.isPlaying).length ≤ rs.slots.length)

/-- Method `RosterState.getSlotById`: `find` answers the first slot with the id, and
`undefined || null` is `null`. -/
def RosterState.getSlotById (rs : RosterState) (slotId : Nat) : Option ActivePlayerSlot :=
  rs.slots.find? fun s => decide (s.slotId = slotId)

/-- Method `RosterState.getPlayerById`. -/
def RosterState.getPlayerById (rs : RosterState) (playerId : Nat) : Option Player :=
  rs.players.find? fun p => decide (p.playerId = playerId)

/-- Method `RosterState.currentPlayer`. -/
def RosterState.currentPlayer (rs : RosterState) (slot : ActivePlayerSlot) :
    Option (Option Player) :=
  mapGet rs.mapping slot.slotId

/-- Method `RosterState.currentSlot`.  With no matching entry `slotIds[0]` is `undefined`,
which is the id of no slot, and `getSlotById` answers `null`. -/
def RosterState.currentSlot (rs : RosterState) (player : Player) : Option ActivePlayerSlot :=
  let slotIds := (rs.mapping.filter fun e =>
      match e.2 with
      | none => false
      | some p => decide (player.playerId = p.playerId)).map fun e => e.1
  match slotIds.head? with
  | none => none
  | some slotId => rs.getSlotById slotId

/-- Method `RosterState.assignPlayer`, on a state passed by value. -/
def RosterState.assignPlayer (rs : RosterState) (player : Option Player)
    (slot : ActivePlayerSlot) : RosterState :=
  { rs with mapping := mapSet rs.mapping slot.slotId player }

/-- Method `RosterState.isEquivalentTo`: every entry of `this.mapping` is compared, with `!==`,
with what the other mapping answers for the key. -/
def RosterState.isEquivalentTo (rs otherRosterState : RosterState) : Bool :=
  rs.mapping.all fun e => decide (some e.2 = mapGet otherRosterState.mapping e.1)

/-! ## Matching -/

/-- Function `positionMatchesSlot`. -/
def positionMatchesSlot (position : String) (slot : ActivePlayerSlot) : Except JsError Bool :=
  let slotType := slot.slotType
  if slotType = "UTIL" then .ok true
  else if position = "PG" then .ok (decide (slotType = "PG") || decide (slotType = "G"))
  else if position = "SG" then .ok (decide (slotType = "SG") || decide (slotType = "G"))
  else if position = "SF" then .ok (decide (slotType = "SF") || decide (slotType = "F"))
  else if position = "PF" then .ok (decide (slotType = "PF") || decide (slotType = "F"))
  else if position = "C" then .ok (decide (slotType = "C"))
  else .error (.error "Unknown position type: ")

/-- The call of `Array.prototype.some` with the callback
`position => positionMatchesSlot(position, slot)`: the positions are tried in order and the
first match ends the search. -/
def somePositionMatches (positions : List String) (slot : ActivePlayerSlot) :
    Except JsError Bool :=
  match positions with
  | [] => .ok false
  | position :: rest =>
    match positionMatchesSlot position slot with
    | .error e => .error e
    | .ok true => .ok true
    | .ok false => somePositionMatches rest slot

/-- Function `playerMatchesSlot`. -/
def playerMatchesSlot (player : Player) (slot : ActivePlayerSlot) : Except JsError Bool :=
  somePositionMatches player.positions slot

/-- The call of `Array.prototype.filter` with the callback `p => playerMatchesSlot(p, slot)`. -/
def filterMatching (players : List Player) (slot : ActivePlayerSlot) :
    Except JsError (List Player) :=
  match players with
  | [] => .ok []
  | p :: rest =>
    match playerMatchesSlot p slot with
    | .error e => .error e
    | .ok b =>
      match filterMatching rest slot with
      | .error e => .error e
      | .ok kept => .ok (if b then p :: kept else kept)

/-! ## Health grouping -/

/-- The loop of `getHealthiestPlayers` over the health levels that are left. -/
def healthiestAmong (levels : List String) (players : List Player) : List Player :=
  match levels with
  | [] => []
  | healthLevel :: rest =>
    let playersAtLevel := players.filter fun p => decide (p.health = healthLevel)
    if playersAtLevel.length > 0 then playersAtLevel else healthiestAmong rest players

/-- Function `getHealthiestPlayers`. -/
def getHealthiestPlayers (players : List Player) : List Player :=
  healthiestAmong PLAYER_HEALTH_LEVELS players

/-! ## Sorting -/

/-- An element of the array `playersWithCurrentSlots`: a player and its current slot. -/
abbrev PlayerWithCurrentSlot := Player × Option ActivePlayerSlot

/-- An engine's `Array.prototype.sort` on `playersWithCurrentSlots`.  The comparator answers a
number.  Whatever the comparator, the sorted array holds the elements it held before. -/
structure ArraySort where
  sort : (PlayerWithCurrentSlot → PlayerWithCurrentSlot → Int) →
    List PlayerWithCurrentSlot → List PlayerWithCurrentSlot
  perm : ∀ comparefn xs, (sort comparefn xs).Perm xs

/-- The loop of V8's `CountRunAndMakeAscending`: how many more elements continue the run. -/
def v8RunExtension {α : Type} (comparefn : α → α → Int) (isDescending : Bool)
    (previous : α) : List α → Nat
  | [] => 0
  | current :: rest =>
    let order := comparefn current previous
    if isDescending then
      if order ≥ 0 then 0 else 1 + v8RunExtension comparefn isDescending current rest
    else
      if order < 0 then 0 else 1 + v8RunExtension comparefn isDescending current rest

/-- V8's `CountRunAndMakeAscending` from index 0: the array, with a descending first run
reversed, and the length of the run. -/
def v8CountRunAndMakeAscending {α : Type} (comparefn : α → α → Int) (xs : List α) :
    List α × Nat :=
  match xs with
  | [] => (xs, 0)
  | [_] => (xs, 1)
  | x0 :: x1 :: rest =>
    let isDescending := decide (comparefn x1 x0 < 0)
    let runLength := 2 + v8RunExtension comparefn isDescending x1 rest
    if isDescending then ((xs.take runLength).reverse ++ xs.drop runLength, runLength)
    else (xs, runLength)

/-- The binary search of V8's `BinaryInsertionSort`: where `pivot` goes in the sorted part. -/
def v8BinarySearch {α : Type} (comparefn : α → α → Int) (pivot : α) (sorted : List α) :
    Nat → Nat → Nat → Nat
  | 0, left, _ => left
  | fuel + 1, left, right =>
    if left < right then
      let mid := left + (right - left) / 2
      match sorted.get? mid with
      | none => left
      | some atMid =>
        if comparefn pivot atMid < 0 then v8BinarySearch comparefn pivot sorted fuel left mid
        else v8BinarySearch comparefn pivot sorted fuel (mid + 1) right
    else left

/-- V8's `BinaryInsertionSort`: the elements after the first run are inserted one by one. -/
def v8BinaryInsertionSort {α : Type} (comparefn : α → α → Int) (sorted : List α) :
    List α → List α
  | [] => sorted
  | pivot :: rest =>
    let left := v8BinarySearch comparefn pivot sorted sorted.length 0 sorted.length
    v8BinaryInsertionSort comparefn (sorted.take left ++ pivot :: sorted.drop left) rest

/-- The sort of V8 (Node.js, Chrome 70 and later) on an array of fewer than 64 elements, which
is one run of its TimSort: the first run is found, and reversed when it descends, and the other
elements are inserted by binary insertion. -/
def v8Sort {α : Type} (comparefn : α → α → Int) (xs : List α) : List α :=
  if xs.length < 2 then xs
  else
    let run := v8CountRunAndMakeAscending comparefn xs
    v8BinaryInsertionSort comparefn (run.1.take run.2) (run.1.drop run.2)

/-- The engine V8 as an `ArraySort`. -/
def v8ArraySort : ArraySort where
  sort := v8Sort
  perm := by
    intro comparefn xs
    have hins : ∀ (rest sorted : List PlayerWithCurrentSlot),
        (v8BinaryInsertionSort comparefn sorted rest).Perm (sorted ++ rest) := by
      intro rest
      induction rest with
      | nil => intro sorted; simp [v8BinaryInsertionSort]
      | cons pivot rest ih =>
        intro sorted
        simp only [v8BinaryInsertionSort]
        refine (ih _).trans ?_
        have h1 : (List.take (v8BinarySearch comparefn pivot sorted sorted.length 0 sorted.length)
            sorted ++ pivot :: List.drop
              (v8BinarySearch comparefn pivot sorted sorted.length 0 sorted.length) sorted).Perm
            (pivot :: sorted) := by
          refine List.perm_middle.trans ?_
          rw [List.take_append_drop]
        refine (List.Perm.append_right rest h1).trans ?_
        simpa using (@List.perm_middle _ pivot sorted rest).symm
    have hrun : (v8CountRunAndMakeAscending comparefn xs).1.Perm xs := by
      unfold v8CountRunAndMakeAscending
      split
      · exact List.Perm.refl _
      · exact List.Perm.refl _
      · dsimp only
        split
        · refine (List.Perm.append_right _ (List.reverse_perm _)).trans ?_
          rw [List.take_append_drop]
        · exact List.Perm.refl _
    unfold v8Sort
    split
    · exact List.Perm.refl _
    · refine (hins _ _).trans ?_
      rw [List.take_append_drop]
      exact hrun

/-- The inner loop of the insertion sort of V8 before version 7.0 (`InsertionSort` of
`array.js`): going left from the end of the sorted part, every `tmp` with
`comparefn(tmp, element) > 0` is shifted one place to the right, and `element` is stored where
the loop stops.  The sorted part is given last element first. -/
def insertionSortInsert {α : Type} (comparefn : α → α → Int) (element : α) : List α → List α
  | [] => [element]
  | tmp :: rest =>
    if comparefn tmp element > 0 then tmp :: insertionSortInsert comparefn element rest
    else element :: tmp :: rest

/-- The outer loop of that insertion sort: the elements are inserted one by one into the
sorted part, which is kept last element first. -/
def insertionSortLoop {α : Type} (comparefn : α → α → Int) : List α → List α → List α
  | sortedReversed, [] => sortedReversed.reverse
  | sortedReversed, element :: rest =>
    insertionSortLoop comparefn (insertionSortInsert comparefn element sortedReversed) rest

/-- The sort of V8 before version 7.0 (Chrome before 70, Node.js before 11) on an array of at
most 10 elements: an insertion sort that shifts on a positive answer of the comparator. -/
def insertionSort {α : Type} (comparefn : α → α → Int) (xs : List α) : List α :=
  insertionSortLoop comparefn [] xs

/-- The insertion sort as an `ArraySort`. -/
def insertionArraySort : ArraySort where
  sort := insertionSort
  perm := by
    intro comparefn xs
    have hinsert : ∀ (element : PlayerWithCurrentSlot) (sorted : List PlayerWithCurrentSlot),
        (insertionSortInsert comparefn element sorted).Perm (element :: sorted) := by
      intro element sorted
      induction sorted with
      | nil => exact List.Perm.refl _
      | cons tmp rest ih =>
        unfold insertionSortInsert
        split
        · exact (List.Perm.cons tmp ih).trans (List.Perm.swap element tmp rest)
        · exact List.Perm.refl _
    have hloop : ∀ (rest sorted : List PlayerWithCurrentSlot),
        (insertionSortLoop comparefn sorted rest).Perm (sorted ++ rest) := by
      intro rest
      induction rest with
      | nil =>
        intro sorted
        simp only [insertionSortLoop, List.append_nil]
        exact List.reverse_perm sorted
      | cons element rest ih =>
        intro sorted
        simp only [insertionSortLoop]
        refine (ih _).trans ?_
        refine (List.Perm.append_right rest (hinsert element sorted)).trans ?_
        simpa using (@List.perm_middle _ element sorted rest).symm
    exact hloop xs []

/-! ## Selection -/

/-- The comparator `([p1, slot1], [p2, slot2]) => p1.compareHealth(p2)` as the sort sees it:
`ToNumber` of the boolean. -/
def healthComparator (a b : PlayerWithCurrentSlot) : Int :=
  if a.1.compareHealth b.1 then 1 else 0

/-- The `while` loop of `findBestPlayerForSlot`: the first player of the array whose current
slot is `null` or of another type than `slot`. -/
def firstWithOtherSlotType (slot : ActivePlayerSlot) :
    List PlayerWithCurrentSlot → Option Player
  | [] => none
  | (player, currentSlot) :: rest =>
    match currentSlot with
    | none => some player
    | some cs =>
      if cs.slotType ≠ slot.slotType then some player else firstWithOtherSlotType slot rest

/-- Function `findBestPlayerForSlot`. -/
def findBestPlayerForSlot (engine : ArraySort) (rosterState : RosterState)
    (slot : ActivePlayerSlot) (availablePlayers : List Player) : Except JsError (Option Player) :=
  match filterMatching availablePlayers slot with
  | .error e => .error e
  | .ok possiblePlayers =>
    match possiblePlayers with
    | [] => .ok none
    | [onlyPlayer] => .ok (some onlyPlayer)
    | _ =>
      let healthiestPlayers := getHealthiestPlayers possiblePlayers
      match rosterState.currentPlayer slot with
      | none => .error .typeError
      | some currentPlayer =>
        let currentPlayerIsPlaying := match currentPlayer with
          | none => false
          | some c => decide (c.playerId ∈ possiblePlayers.map fun p => p.playerId)
        let currentPlayerIsHealthy := match currentPlayer with
          | none => false
          | some c => decide (c.playerId ∈ healthiestPlayers.map fun p => p.playerId)
        if currentPlayerIsPlaying && (rosterState.hasRoomForEveryone || currentPlayerIsHealthy) then
          .ok currentPlayer
        else
          let playersWithCurrentSlots := possiblePlayers.map fun p => (p, rosterState.currentSlot p)
          .ok (firstWithOtherSlotType slot (engine.sort healthComparator playersWithCurrentSlots))

/-- The test of the stability rule of `findBestPlayerForSlot`, lines 130 to 134, for the
eligible players `possiblePlayers`: the rule keeps the current player when the answer is
`true`.  Reading `playerId` of `undefined` raises a `TypeError`. -/
def keepsCurrentPlayer (rosterState : RosterState) (slot : ActivePlayerSlot)
    (possiblePlayers : List Player) : Except JsError Bool :=
  let healthiestPlayers := getHealthiestPlayers possiblePlayers
  match rosterState.currentPlayer slot with
  | none => .error .typeError
  | some currentPlayer =>
    let currentPlayerIsPlaying := match currentPlayer with
      | none => false
      | some c => decide (c.playerId ∈ possiblePlayers.map fun p => p.playerId)
    let currentPlayerIsHealthy := match currentPlayer with
      | none => false
      | some c => decide (c.playerId ∈ healthiestPlayers.map fun p => p.playerId)
    .ok (currentPlayerIsPlaying && (rosterState.hasRoomForEveryone || currentPlayerIsHealthy))

/-! ## The pass over the slots -/

/-- The call `availablePlayers.splice(availablePlayers.indexOf(chosenPlayer), 1)`.  When the
player is not in the array `indexOf` answers `-1`, and `splice(-1, 1)` removes the last
element. -/
def removeChosen (availablePlayers : List Player) (chosenPlayer : Player) : List Player :=
  let index := availablePlayers.indexOf chosenPlayer
  if index < availablePlayers.length then availablePlayers.eraseIdx index
  else availablePlayers.eraseIdx (availablePlayers.length - 1)

/-- The `for` loop of `calculateNewRoster` over the slots that are left, with the array
`availablePlayers` and the new state as they are before the slot is handled. -/
def assignSlots (engine : ArraySort) (rosterState : RosterState) :
    List ActivePlayerSlot → List Player → RosterState → Except JsError RosterState
  | [], _, newRosterState => .ok newRosterState
  | slot :: rest, availablePlayers, newRosterState =>
    match findBestPlayerForSlot engine rosterState slot availablePlayers with
    | .error e => .error e
    | .ok none =>
      let chosenPlayer : Option Player :=
        match rosterState.currentPlayer slot with
        | some (some currentPlayer) =>
          if currentPlayer ∈ availablePlayers then some currentPlayer else none
        | _ => none
      assignSlots engine rosterState rest availablePlayers
        (newRosterState.assignPlayer chosenPlayer slot)
    | .ok (some chosenPlayer) =>
      assignSlots engine rosterState rest (removeChosen availablePlayers chosenPlayer)
        (newRosterState.assignPlayer (some chosenPlayer) slot)

/-- Function `calculateNewRoster`. -/
def calculateNewRoster (engine : ArraySort) (rosterState : RosterState) :
    Except JsError RosterState :=
  assignSlots engine rosterState rosterState.slots
    (rosterState.players.filter fun p => p.isPlaying)
    { slots := rosterState.slots, players := rosterState.players,
      mapping := rosterState.mapping }

/-! ## Well-formed roster states -/

/-- The five position codes of the `switch` in `positionMatchesSlot`. -/
def recognisedPositions : List String := ["PG", "SG", "SF", "PF", "C"]

/-- The eight slot types. -/
def slotTypes : List String := SPECIFIC_SLOT_TYPES ++ GENERIC_SLOT_TYPES

/-- The players that the mapping holds, in the order of its entries. -/
def RosterState.occupants (rs : RosterState) : List Player :=
  rs.mapping.filterMap fun e => e.2

/-- Slot ids are unique within the roster. -/
abbrev UniqueSlotIds (rs : RosterState) : Prop :=
  (rs.slots.map fun s => s.slotId).Nodup

/-- Player ids are unique within the player set. -/
abbrev UniquePlayerIds (rs : RosterState) : Prop :=
  (rs.players.map fun p => p.playerId).Nodup

/-- Every position of every player is one of the five position codes. -/
abbrev RecognisedPositions (rs : RosterState) : Prop :=
  ∀ p ∈ rs.players, ∀ position ∈ p.positions, position ∈ recognisedPositions

/-- Every player that occupies a slot of the sequence is eligible for that slot. -/
def IncumbentsEligible (rs : RosterState) : Prop :=
  ∀ s ∈ rs.slots, ∀ p, rs.currentPlayer s = some (some p) → playerMatchesSlot p s = .ok true

/-- No player occupies two slots: the player ids held by the mapping are distinct. -/
abbrev NoPlayerInTwoSlots (rs : RosterState) : Prop :=
  (rs.occupants.map fun p => p.playerId).Nodup

/-- The players that the mapping holds are objects of the player set. -/
abbrev OccupantsArePlayers (rs : RosterState) : Prop :=
  ∀ p ∈ rs.occupants, p ∈ rs.players

/-- The keys of the mapping are distinct, as in a `Map`, and are ids of slots of the
sequence. -/
abbrev MappingKeysAreSlots (rs : RosterState) : Prop :=
  (rs.mapping.map fun e => e.1).Nodup ∧
    ∀ e ∈ rs.mapping, e.1 ∈ rs.slots.map fun s => s.slotId

/-- A well-formed roster state: the invariants of the data model. -/
structure WellFormed (rs : RosterState) : Prop where
  uniqueSlotIds : UniqueSlotIds rs
  uniquePlayerIds : UniquePlayerIds rs
  slotTypesKnown : ∀ s ∈ rs.slots, s.slotType ∈ slotTypes
  recognisedPositions : RecognisedPositions rs
  healthKnown : ∀ p ∈ rs.players, p.health ∈ PLAYER_HEALTH_LEVELS
  mappingKeysAreSlots : MappingKeysAreSlots rs
  occupantsArePlayers : OccupantsArePlayers rs
  noPlayerInTwoSlots : NoPlayerInTwoSlots rs

/-! ## The table of the specification -/

/-- The eligibility table in the words of the specification: a utility slot accepts any
position, a specific slot its own position, a guard slot the two guards and a forward slot the
two forwards. -/
def SpecMatches (position slotType : String) : Prop :=
  slotType = "UTIL" ∨ slotType = position ∨
    (slotType = "G" ∧ (position = "PG" ∨ position = "SG")) ∨
    (slotType = "F" ∧ (position = "SF" ∨ position = "PF"))

instance (position slotType : String) : Decidable (SpecMatches position slotType) := by
  unfold SpecMatches; infer_instance

/-- The rank of a health level in the words of the specification, from best to worst:
healthy, day-to-day, out, suspended. -/
def specHealthRank (health : String) : Nat :=
  if health = "HEALTHY" then 0
  else if health = "DTD" then 1
  else if health = "O" then 2
  else 3

/-! ## Rosters of the examples -/

/-- A player object whose `ref` is its id. -/
def examplePlayer (playerId : Nat) (positions : List String) (health : String)
    (opponent : Option String) : Player :=
  { ref := playerId, playerId := playerId, name := "", positions := positions,
    health := health, opponent := opponent }

/-- Two point-guard slots and a guard slot, four playing players for three slots: a day-to-day
point guard in slot 1, a healthy point guard in slot 2, two centers without a slot. -/
def crowdedGuards : RosterState :=
  { slots := [⟨1, "PG"⟩, ⟨2, "PG"⟩, ⟨3, "G"⟩]
    players := [examplePlayer 1 ["PG"] "DTD" (some "BOS"),
      examplePlayer 2 ["PG"] "HEALTHY" (some "BOS"),
      examplePlayer 3 ["C"] "O" (some "BOS"), examplePlayer 4 ["C"] "O" (some "BOS")]
    mapping := [(1, some (examplePlayer 1 ["PG"] "DTD" (some "BOS"))),
      (2, some (examplePlayer 2 ["PG"] "HEALTHY" (some "BOS"))), (3, none)] }

/-- One point-guard slot, held by a healthy point guard who has no game. -/
def benchedGuard : RosterState :=
  { slots := [⟨1, "PG"⟩]
    players := [examplePlayer 1 ["PG"] "HEALTHY" none]
    mapping := [(1, some (examplePlayer 1 ["PG"] "HEALTHY" none))] }

/-- One point-guard slot, held by a playing center. -/
def centerInGuardSlot : RosterState :=
  { slots := [⟨1, "PG"⟩]
    players := [examplePlayer 1 ["C"] "HEALTHY" (some "BOS")]
    mapping := [(1, some (examplePlayer 1 ["C"] "HEALTHY" (some "BOS")))] }

/-- An empty utility slot before a point-guard slot that a healthy playing point guard
holds. -/
def utilBeforeGuard : RosterState :=
  { slots := [⟨1, "UTIL"⟩, ⟨2, "PG"⟩]
    players := [examplePlayer 1 ["PG"] "HEALTHY" (some "BOS")]
    mapping := [(1, none), (2, some (examplePlayer 1 ["PG"] "HEALTHY" (some "BOS")))] }

/-- Two utility slots: the first empty, the second held by the only playing player. -/
def twoUtil : RosterState :=
  { slots := [⟨1, "UTIL"⟩, ⟨2, "UTIL"⟩]
    players := [examplePlayer 1 ["PG"] "HEALTHY" (some "BOS")]
    mapping := [(1, none), (2, some (examplePlayer 1 ["PG"] "HEALTHY" (some "BOS")))] }

/-- One empty point-guard slot and two playing point guards without a slot: the day-to-day
one first, the healthy one second. -/
def openGuardSlot : RosterState :=
  { slots := [⟨1, "PG"⟩]
    players := [examplePlayer 1 ["PG"] "DTD" (some "BOS"),
      examplePlayer 2 ["PG"] "HEALTHY" (some "BOS")]
    mapping := [(1, none)] }

/-- Two utility slots for two playing players: slot 1 is held by a day-to-day point guard,
slot 2 by a healthy center. -/
def roomyUtil : RosterState :=
  { slots := [⟨1, "UTIL"⟩, ⟨2, "UTIL"⟩]
    players := [examplePlayer 1 ["PG"] "DTD" (some "BOS"),
      examplePlayer 2 ["C"] "HEALTHY" (some "BOS")]
    mapping := [(1, some (examplePlayer 1 ["PG"] "DTD" (some "BOS"))),
      (2, some (examplePlayer 2 ["C"] "HEALTHY" (some "BOS")))] }

/-- One point-guard slot without an entry in the mapping, and two playing point guards. -/
def missingKey : RosterState :=
  { slots := [⟨1, "PG"⟩]
    players := [examplePlayer 1 ["PG"] "HEALTHY" (some "BOS"),
      examplePlayer 2 ["PG"] "HEALTHY" (some "BOS")]
    mapping := [] }

/-- One point-guard slot and one point guard; the mapping has no entry. -/
def unseated : RosterState :=
  { slots := [⟨1, "PG"⟩]
    players := [examplePlayer 1 ["PG"] "HEALTHY" (some "BOS")]
    mapping := [] }

/-- The roster of `unseated` with the point guard in slot 1. -/
def seated : RosterState :=
  { unseated with mapping := [(1, some (examplePlayer 1 ["PG"] "HEALTHY" (some "BOS")))] }

/-- The roster of `unseated` with the entry `null` for slot 1. -/
def vacant : RosterState :=
  { unseated with mapping := [(1, none)] }

/-- Three point-guard slots and two playing point guards: slot 1 is empty, slot 3 holds
player 2, and slot 2 has no entry in the mapping. -/
def partialKeys : RosterState :=
  { slots := [⟨1, "PG"⟩, ⟨2, "PG"⟩, ⟨3, "PG"⟩]
    players := [examplePlayer 1 ["PG"] "HEALTHY" (some "BOS"),
      examplePlayer 2 ["PG"] "HEALTHY" (some "BOS")]
    mapping := [(1, none), (3, some (examplePlayer 2 ["PG"] "HEALTHY" (some "BOS")))] }

/-- The roster of `partialKeys` with one more entry: slot 2 holds player 1. -/
def fullKeys : RosterState :=
  { partialKeys with
    mapping := [(1, none), (3, some (examplePlayer 2 ["PG"] "HEALTHY" (some "BOS"))),
      (2, some (examplePlayer 1 ["PG"] "HEALTHY" (some "BOS")))] }

/-- A center slot held by a center and a point-guard slot held by a player whose positions are
`PG` and the unknown code `XX`; both players are playing. -/
def unknownSecondPosition : RosterState :=
  { slots := [⟨1, "C"⟩, ⟨2, "PG"⟩]
    players := [examplePlayer 1 ["C"] "HEALTHY" (some "BOS"),
      examplePlayer 2 ["PG", "XX"] "HEALTHY" (some "BOS")]
    mapping := [(1, some (examplePlayer 1 ["C"] "HEALTHY" (some "BOS"))),
      (2, some (examplePlayer 2 ["PG", "XX"] "HEALTHY" (some "BOS")))] }

/-- One empty point-guard slot and two playing, healthy point guards without a slot. -/
def tiedGuards : RosterState :=
  { slots := [⟨1, "PG"⟩]
    players := [examplePlayer 1 ["PG"] "HEALTHY" (some "BOS"),
      examplePlayer 2 ["PG"] "HEALTHY" (some "BOS")]
    mapping := [(1, none)] }

/-! ## Lemmas on the scan and on the filter -/

/-- The scan finds nobody exactly when every player of the array holds a slot of the type of
`slot`. -/
theorem firstWithOtherSlotType_eq_none_iff (slot : ActivePlayerSlot)
    (xs : List PlayerWithCurrentSlot) :
    firstWithOtherSlotType slot xs = none ↔
      ∀ x ∈ xs, ∃ cs, x.2 = some cs ∧ cs.slotType = slot.slotType := by
  induction xs with
  | nil => simp [firstWithOtherSlotType]
  | cons x rest ih =>
    obtain ⟨player, currentSlot⟩ := x
    cases currentSlot with
    | none => simp [firstWithOtherSlotType]
    | some cs =>
      by_cases hty : cs.slotType = slot.slotType
      · simp [firstWithOtherSlotType, hty, ih]
      · simp [firstWithOtherSlotType, hty]

/-- A player found by the scan is in the array, with a current slot that is `null` or of
another type than `slot`. -/
theorem firstWithOtherSlotType_eq_some (slot : ActivePlayerSlot)
    (xs : List PlayerWithCurrentSlot) (p : Player)
    (h : firstWithOtherSlotType slot xs = some p) :
    ∃ currentSlot, (p, currentSlot) ∈ xs ∧
      ∀ cs, currentSlot = some cs → cs.slotType ≠ slot.slotType := by
  induction xs with
  | nil => simp [firstWithOtherSlotType] at h
  | cons x rest ih =>
    obtain ⟨player, currentSlot⟩ := x
    cases currentSlot with
    | none =>
      simp only [firstWithOtherSlotType, Option.some.injEq] at h
      subst h
      exact ⟨none, List.mem_cons_self _ _, by simp⟩
    | some cs =>
      by_cases hty : cs.slotType = slot.slotType
      · simp only [firstWithOtherSlotType, hty, ne_eq, not_true_eq_false, if_false] at h
        obtain ⟨c, hc, hc2⟩ := ih h
        exact ⟨c, List.mem_cons_of_mem _ hc, hc2⟩
      · simp only [firstWithOtherSlotType, ne_eq, hty, not_false_eq_true, if_true,
          Option.some.injEq] at h
        subst h
        refine ⟨some cs, List.mem_cons_self _ _, ?_⟩
        intro c hc
        simp only [Option.some.injEq] at hc
        subst hc
        exact hty

/-- The filter keeps exactly the players of the array that match the slot. -/
theorem filterMatching_mem (slot : ActivePlayerSlot) (players possible : List Player)
    (h : filterMatching players slot = .ok possible) (p : Player) :
    p ∈ possible ↔ p ∈ players ∧ playerMatchesSlot p slot = .ok true := by
  induction players generalizing possible with
  | nil =>
    simp only [filterMatching, Except.ok.injEq] at h
    subst h
    simp
  | cons q rest ih =>
    unfold filterMatching at h
    cases hq : playerMatchesSlot q slot with
    | error e => rw [hq] at h; simp at h
    | ok b =>
      rw [hq] at h
      cases hrest : filterMatching rest slot with
      | error e => rw [hrest] at h; simp at h
      | ok kept =>
        rw [hrest] at h
        simp only [Except.ok.injEq] at h
        subst h
        have ihk := ih kept hrest
        cases b with
        | true =>
          simp only [if_true, List.mem_cons, ihk]
          constructor
          · rintro (rfl | ⟨h1, h2⟩)
            · exact ⟨Or.inl rfl, hq⟩
            · exact ⟨Or.inr h1, h2⟩
          · rintro ⟨rfl | h1, h2⟩
            · exact Or.inl rfl
            · exact Or.inr ⟨h1, h2⟩
        | false =>
          simp only [Bool.false_eq_true, if_false, List.mem_cons, ihk]
          constructor
          · rintro ⟨h1, h2⟩
            exact ⟨Or.inr h1, h2⟩
          · rintro ⟨rfl | h1, h2⟩
            · rw [hq] at h2; simp at h2
            · exact ⟨h1, h2⟩

/-! ## Lemmas on the mapping and on the pass -/

/-- After `set`, `get` of the same key answers the value. -/
theorem mapGet_mapSet_same (m : List (Nat × Option Player)) (key : Nat)
    (value : Option Player) : mapGet (mapSet m key value) key = some value := by
  induction m with
  | nil => simp [mapSet, mapGet]
  | cons e rest ih =>
    obtain ⟨k, v⟩ := e
    by_cases hk : k = key
    · simp [mapSet, mapGet, hk]
    · simp [mapSet, mapGet, hk, ih]

/-- After `set`, `get` of another key answers what it answered before. -/
theorem mapGet_mapSet_other (m : List (Nat × Option Player)) (key other : Nat)
    (value : Option Player) (h : other ≠ key) :
    mapGet (mapSet m key value) other = mapGet m other := by
  induction m with
  | nil =>
    have h2 : ¬ key = other := fun e => h e.symm
    simp [mapSet, mapGet, h2]
  | cons e rest ih =>
    obtain ⟨k, v⟩ := e
    by_cases hk : k = key
    · subst hk
      have h2 : ¬ k = other := fun e => h e.symm
      simp [mapSet, mapGet, h2]
    · by_cases hk2 : k = other
      · subst hk2
        simp [mapSet, mapGet, hk]
      · simp [mapSet, mapGet, hk, hk2, ih]

/-- A player that `get` answers is held by the mapping. -/
theorem mem_filterMap_of_mapGet (m : List (Nat × Option Player)) (key : Nat) (p : Player)
    (h : mapGet m key = some (some p)) : p ∈ m.filterMap fun e => e.2 := by
  induction m with
  | nil => simp [mapGet] at h
  | cons e rest ih =>
    obtain ⟨k, v⟩ := e
    by_cases hk : k = key
    · simp only [mapGet, hk, if_true, Option.some.injEq] at h
      subst h
      simp [List.filterMap_cons]
    · simp only [mapGet, hk, if_false] at h
      have := ih h
      cases v with
      | none => simpa [List.filterMap_cons] using this
      | some q => simp only [List.filterMap_cons, List.mem_cons]; exact Or.inr this

/-- The `splice` of the pass removes nothing but elements of the array. -/
theorem removeChosen_subset (availablePlayers : List Player) (chosenPlayer q : Player)
    (h : q ∈ removeChosen availablePlayers chosenPlayer) : q ∈ availablePlayers := by
  unfold removeChosen at h
  dsimp only at h
  split at h
  · exact List.mem_of_mem_eraseIdx h
  · exact List.mem_of_mem_eraseIdx h

/-- When the chosen player is in the array, the `splice` of the pass leaves every other
player in it. -/
theorem mem_removeChosen (availablePlayers : List Player) (chosenPlayer q : Player)
    (hc : chosenPlayer ∈ availablePlayers) (hq : q ∈ availablePlayers)
    (hne : q ≠ chosenPlayer) : q ∈ removeChosen availablePlayers chosenPlayer := by
  unfold removeChosen
  dsimp only
  rw [if_pos (List.indexOf_lt_length.2 hc), List.eraseIdx_indexOf_eq_erase]
  exact (List.mem_erase_of_ne hne).2 hq

/-- A player that `findBestPlayerForSlot` returns is an eligible pool player, or it is the
incumbent of the slot and an eligible pool player has its `playerId`. -/
theorem findBestPlayerForSlot_some (engine : ArraySort) (rosterState : RosterState)
    (slot : ActivePlayerSlot) (availablePlayers : List Player) (p : Player)
    (h : findBestPlayerForSlot engine rosterState slot availablePlayers = .ok (some p)) :
    (p ∈ availablePlayers ∧ playerMatchesSlot p slot = .ok true) ∨
      (rosterState.currentPlayer slot = some (some p) ∧
        ∃ q ∈ availablePlayers, playerMatchesSlot q slot = .ok true ∧
          q.playerId = p.playerId) := by
  unfold findBestPlayerForSlot at h
  cases hposs : filterMatching availablePlayers slot with
  | error e => rw [hposs] at h; simp at h
  | ok possiblePlayers =>
    rw [hposs] at h
    have hmem := filterMatching_mem slot availablePlayers possiblePlayers hposs
    match possiblePlayers, hmem, h with
    | [], _, h => simp at h
    | [onlyPlayer], hmem, h =>
      simp only [Except.ok.injEq, Option.some.injEq] at h
      subst h
      exact Or.inl ((hmem _).1 (List.mem_singleton_self _))
    | x :: y :: rest, hmem, h =>
      dsimp only at h
      cases hcur : rosterState.currentPlayer slot with
      | none => rw [hcur] at h; simp at h
      | some currentPlayer =>
        rw [hcur] at h
        dsimp only at h
        split at h
        · next hcond =>
          simp only [Except.ok.injEq] at h
          subst h
          simp only [Bool.and_eq_true, decide_eq_true_eq, List.mem_map] at hcond
          obtain ⟨q, hq, hqid⟩ := hcond.1
          exact Or.inr ⟨rfl, q, ((hmem q).1 hq).1, ((hmem q).1 hq).2, hqid⟩
        · simp only [Except.ok.injEq] at h
          obtain ⟨cs, hcs, _⟩ := firstWithOtherSlotType_eq_some _ _ _ h
          have hcs2 := (engine.perm _ _).subset hcs
          simp only [List.mem_map, Prod.mk.injEq] at hcs2
          obtain ⟨q, hq, hqp, _⟩ := hcs2
          subst hqp
          exact Or.inl ((hmem q).1 hq)

/-- One turn of the loop of the pass: what is assigned to the slot, and the available
players after it. -/
theorem assignSlots_cons_ok (engine : ArraySort) (rosterState : RosterState)
    (slot : ActivePlayerSlot) (rest : List ActivePlayerSlot) (availablePlayers : List Player)
    (newRosterState out : RosterState)
    (h : assignSlots engine rosterState (slot :: rest) availablePlayers newRosterState
      = .ok out) :
    ∃ chosen remaining,
      ((findBestPlayerForSlot engine rosterState slot availablePlayers = .ok none ∧
          remaining = availablePlayers ∧
          (chosen = none ∨ ∃ cur, chosen = some cur ∧
            rosterState.currentPlayer slot = some (some cur) ∧ cur ∈ availablePlayers)) ∨
        (∃ c, findBestPlayerForSlot engine rosterState slot availablePlayers = .ok (some c) ∧
          chosen = some c ∧ remaining = removeChosen availablePlayers c)) ∧
      assignSlots engine rosterState rest remaining (newRosterState.assignPlayer chosen slot)
        = .ok out := by
  rw [assignSlots] at h
  cases hbest : findBestPlayerForSlot engine rosterState slot availablePlayers with
  | error e => rw [hbest] at h; simp at h
  | ok best =>
    rw [hbest] at h
    cases best with
    | none =>
      dsimp only at h
      refine ⟨_, availablePlayers, Or.inl ⟨rfl, rfl, ?_⟩, h⟩
      cases hcur : rosterState.currentPlayer slot with
      | none => exact Or.inl rfl
      | some cur =>
        cases cur with
        | none => exact Or.inl rfl
        | some c =>
          by_cases hc : c ∈ availablePlayers
          · exact Or.inr ⟨c, by simp [hc], rfl, hc⟩
          · exact Or.inl (by simp [hc])
    | some c =>
      dsimp only at h
      exact ⟨some c, _, Or.inr ⟨c, rfl, rfl, rfl⟩, h⟩

/-- The pass changes the mapping at the ids of the slots it handles only. -/
theorem assignSlots_frame (engine : ArraySort) (rosterState : RosterState)
    (slots : List ActivePlayerSlot) (availablePlayers : List Player)
    (newRosterState out : RosterState)
    (h : assignSlots engine rosterState slots availablePlayers newRosterState = .ok out)
    (key : Nat) (hkey : key ∉ slots.map fun s => s.slotId) :
    mapGet out.mapping key = mapGet newRosterState.mapping key := by
  induction slots generalizing availablePlayers newRosterState with
  | nil =>
    simp only [assignSlots, Except.ok.injEq] at h
    subst h
    rfl
  | cons slot rest ih =>
    obtain ⟨chosen, remaining, _, hrest⟩ := assignSlots_cons_ok _ _ _ _ _ _ _ h
    simp only [List.map_cons, List.mem_cons, not_or] at hkey
    rw [ih remaining _ hrest hkey.2]
    exact mapGet_mapSet_other _ _ _ _ hkey.1

/-- The slot handled first keeps, in the output, what the pass assigned to it, when no later
slot has its id. -/
theorem assignSlots_head (engine : ArraySort) (rosterState : RosterState)
    (rest : List ActivePlayerSlot) (remaining : List Player) (slot : ActivePlayerSlot)
    (chosen : Option Player) (newRosterState out : RosterState)
    (h : assignSlots engine rosterState rest remaining
      (newRosterState.assignPlayer chosen slot) = .ok out)
    (hkey : slot.slotId ∉ rest.map fun s => s.slotId) :
    out.currentPlayer slot = some chosen := by
  unfold RosterState.currentPlayer
  rw [assignSlots_frame _ _ _ _ _ _ h _ hkey]
  exact mapGet_mapSet_same _ _ _

/-- The stability rule: with an incumbent that has the `playerId` of an eligible pool player,
and room for everyone or an incumbent among the healthiest, the player returned has the
`playerId` of the incumbent. -/
theorem findBestPlayerForSlot_of_incumbent (engine : ArraySort) (rosterState : RosterState)
    (slot : ActivePlayerSlot) (availablePlayers possiblePlayers : List Player)
    (currentPlayer : Player)
    (hposs : filterMatching availablePlayers slot = .ok possiblePlayers)
    (hcur : rosterState.currentPlayer slot = some (some currentPlayer))
    (hid : currentPlayer.playerId ∈ possiblePlayers.map fun p => p.playerId)
    (hroom : rosterState.hasRoomForEveryone = true ∨
      currentPlayer.playerId ∈ (getHealthiestPlayers possiblePlayers).map fun p => p.playerId) :
    ∃ p, findBestPlayerForSlot engine rosterState slot availablePlayers = .ok (some p) ∧
      p.playerId = currentPlayer.playerId ∧
      (2 ≤ possiblePlayers.length ∨ currentPlayer ∈ possiblePlayers → p = currentPlayer) := by
  unfold findBestPlayerForSlot
  rw [hposs]
  match possiblePlayers, hid, hroom with
  | [], hid, _ => simp at hid
  | [onlyPlayer], hid, _ =>
    simp only [List.map_cons, List.map_nil, List.mem_singleton] at hid
    refine ⟨onlyPlayer, rfl, hid.symm, ?_⟩
    rintro (h | h)
    · simp at h
    · simp only [List.mem_singleton] at h
      exact h.symm
  | x :: y :: rest, hid, hroom =>
    refine ⟨currentPlayer, ?_, rfl, fun _ => rfl⟩
    simp only [hcur]
    have hplaying : decide (currentPlayer.playerId ∈
        (x :: y :: rest).map fun p => p.playerId) = true := by
      simpa using hid
    rcases hroom with hroom | hroom
    · simp only [hplaying, hroom, Bool.true_or, Bool.and_true, if_true]
    · have hhealthy : decide (currentPlayer.playerId ∈
          (getHealthiestPlayers (x :: y :: rest)).map fun p => p.playerId) = true := by
        simpa using hroom
      simp only [hplaying, hhealthy, Bool.or_true, Bool.and_true, if_true]

/-- The occupants of the output of the pass are eligible for their slots when the incumbents
are and the slot ids are distinct. -/
theorem assignSlots_occupants_match (engine : ArraySort) (rosterState : RosterState)
    (slots : List ActivePlayerSlot) (availablePlayers : List Player)
    (newRosterState out : RosterState)
    (helig : ∀ s ∈ slots, ∀ p, rosterState.currentPlayer s = some (some p) →
      playerMatchesSlot p s = .ok true)
    (hnodup : (slots.map fun s => s.slotId).Nodup)
    (h : assignSlots engine rosterState slots availablePlayers newRosterState = .ok out) :
    ∀ s ∈ slots, ∀ p, out.currentPlayer s = some (some p) →
      playerMatchesSlot p s = .ok true := by
  induction slots generalizing availablePlayers newRosterState with
  | nil => intro s hs; simp at hs
  | cons slot rest ih =>
    obtain ⟨chosen, remaining, hstep, hrest⟩ := assignSlots_cons_ok _ _ _ _ _ _ _ h
    simp only [List.map_cons, List.nodup_cons] at hnodup
    intro s hs p hp
    rcases List.mem_cons.1 hs with rfl | hs2
    · rw [assignSlots_head _ _ _ _ _ _ _ _ hrest hnodup.1] at hp
      simp only [Option.some.injEq] at hp
      subst hp
      rcases hstep with ⟨_, _, hch⟩ | ⟨c, hbest, hch, _⟩
      · rcases hch with hch | ⟨cur, hch, hcur, _⟩
        · simp at hch
        · simp only [Option.some.injEq] at hch
          subst hch
          exact helig s (List.mem_cons_self _ _) _ hcur
      · simp only [Option.some.injEq] at hch
        subst hch
        rcases findBestPlayerForSlot_some _ _ _ _ _ hbest with ⟨_, hm⟩ | ⟨hcur, _⟩
        · exact hm
        · exact helig s (List.mem_cons_self _ _) _ hcur
    · exact ih remaining _ (fun t ht => helig t (List.mem_cons_of_mem _ ht)) hnodup.2 hrest
        s hs2 p hp

/-- With room for everyone, an eligible incumbent that is still available when the pass
reaches the slots `pre ++ slot :: post` holds `slot` in the output, or a slot of `pre`. -/
theorem assignSlots_incumbent (engine : ArraySort) (rosterState : RosterState)
    (hroom : rosterState.hasRoomForEveryone = true) (hids : UniquePlayerIds rosterState)
    (hocc : OccupantsArePlayers rosterState) (slot : ActivePlayerSlot)
    (post : List ActivePlayerSlot) (p : Player)
    (hcur : rosterState.currentPlayer slot = some (some p))
    (helig : playerMatchesSlot p slot = .ok true)
    (pre : List ActivePlayerSlot) (availablePlayers : List Player)
    (newRosterState out : RosterState)
    (havail : ∀ q ∈ availablePlayers, q ∈ rosterState.players)
    (hnodup : ((pre ++ slot :: post).map fun s => s.slotId).Nodup)
    (h : assignSlots engine rosterState (pre ++ slot :: post) availablePlayers newRosterState
      = .ok out)
    (hp : p ∈ availablePlayers) :
    out.currentPlayer slot = some (some p) ∨
      ∃ s ∈ pre, out.currentPlayer s = some (some p) := by
  induction pre generalizing availablePlayers newRosterState with
  | nil =>
    left
    simp only [List.nil_append] at h hnodup
    obtain ⟨chosen, remaining, hstep, hrest⟩ := assignSlots_cons_ok _ _ _ _ _ _ _ h
    simp only [List.map_cons, List.nodup_cons] at hnodup
    rw [assignSlots_head _ _ _ _ _ _ _ _ hrest hnodup.1]
    cases hposs : filterMatching availablePlayers slot with
    | error e =>
      have herr : findBestPlayerForSlot engine rosterState slot availablePlayers
          = .error e := by
        unfold findBestPlayerForSlot
        rw [hposs]
      rcases hstep with ⟨hbest, _, _⟩ | ⟨c, hbest, _, _⟩ <;> rw [herr] at hbest <;>
        simp at hbest
    | ok possiblePlayers =>
      have hmem := (filterMatching_mem slot availablePlayers possiblePlayers hposs p).2
        ⟨hp, helig⟩
      obtain ⟨q, hq, _, hobj⟩ := findBestPlayerForSlot_of_incumbent engine rosterState slot
        availablePlayers possiblePlayers p hposs hcur
        (List.mem_map.2 ⟨p, hmem, rfl⟩) (Or.inl hroom)
      rw [hobj (Or.inr hmem)] at hq
      rcases hstep with ⟨hbest, _, _⟩ | ⟨c, hbest, hch, _⟩
      · rw [hq] at hbest
        simp at hbest
      · rw [hq] at hbest
        simp only [Except.ok.injEq, Option.some.injEq] at hbest
        rw [hch, hbest]
  | cons first pre ih =>
    simp only [List.cons_append] at h hnodup
    obtain ⟨chosen, remaining, hstep, hrest⟩ := assignSlots_cons_ok _ _ _ _ _ _ _ h
    simp only [List.map_cons, List.nodup_cons] at hnodup
    have hlater : ∀ remaining2 : List Player, remaining2 = remaining →
        (∀ q ∈ remaining2, q ∈ rosterState.players) → p ∈ remaining2 →
        out.currentPlayer slot = some (some p) ∨
          ∃ s ∈ first :: pre, out.currentPlayer s = some (some p) := by
      intro remaining2 heq hsub hin
      subst heq
      rcases ih remaining2 _ hsub hnodup.2 hrest hin with hl | ⟨s, hs, hr⟩
      · exact Or.inl hl
      · exact Or.inr ⟨s, List.mem_cons_of_mem _ hs, hr⟩
    rcases hstep with ⟨_, hrem, _⟩ | ⟨c, hbest, hch, hrem⟩
    · exact hlater availablePlayers hrem.symm havail hp
    · have hc : c ∈ availablePlayers := by
        rcases findBestPlayerForSlot_some _ _ _ _ _ hbest with ⟨hc, _⟩ | ⟨hcur2, q, hq, _, hqid⟩
        · exact hc
        · have hcp : c ∈ rosterState.players :=
            hocc c (mem_filterMap_of_mapGet _ _ _ hcur2)
          have hqc : q = c := List.inj_on_of_nodup_map hids (havail q hq) hcp hqid
          rw [← hqc]
          exact hq
      by_cases hpc : p = c
      · right
        refine ⟨first, List.mem_cons_self _ _, ?_⟩
        rw [assignSlots_head _ _ _ _ _ _ _ _ hrest hnodup.1, hch, hpc]
      · exact hlater (removeChosen availablePlayers c) hrem.symm
          (fun q hq => havail q (removeChosen_subset _ _ _ hq))
          (mem_removeChosen _ _ _ hc hp hpc)

/-! ## Position and slot matching (C8, C9) -/

/-- Claim C8, as stated, fails: for the position code `"XX"`, which is none of the five, and a
`UTIL` slot, `positionMatchesSlot` returns `true` and raises no error. -/
theorem positionMatchesSlot_unknown_position_util :
    "XX" ∉ recognisedPositions ∧
      positionMatchesSlot "XX" { slotId := 1, slotType := SLOT_TYPE_UTIL } = .ok true := by
  decide

/-- Claim C8, amended: for every position code that is not one of PG, SG, SF, PF, C,
`positionMatchesSlot` fails with the error `Unknown position type: ` on every slot whose type
is not `UTIL`, and returns `true` on every slot whose type is `UTIL`. -/
theorem positionMatchesSlot_unknown_position (position : String) (slot : ActivePlayerSlot)
    (hpos : position ∉ recognisedPositions) :
    (slot.slotType ≠ SLOT_TYPE_UTIL →
        positionMatchesSlot position slot = .error (.error "Unknown position type: ")) ∧
      (slot.slotType = SLOT_TYPE_UTIL → positionMatchesSlot position slot = .ok true) := by
  simp only [recognisedPositions, List.mem_cons, List.mem_singleton, not_or,
    List.not_mem_nil, or_false] at hpos
  obtain ⟨h1, h2, h3, h4, h5⟩ := hpos
  constructor
  · intro hs
    have hs2 : ¬ slot.slotType = "UTIL" := hs
    simp [positionMatchesSlot, hs2, h1, h2, h3, h4, h5]
  · intro hs
    have hs2 : slot.slotType = "UTIL" := hs
    simp [positionMatchesSlot, hs2]

/-- Witness for C8: the position code `"XX"` on a `PG` slot and on a `UTIL` slot. -/
theorem positionMatchesSlot_unknown_position_witness :
    positionMatchesSlot "XX" { slotId := 1, slotType := "PG" }
        = .error (.error "Unknown position type: ") ∧
      positionMatchesSlot "XX" { slotId := 2, slotType := "UTIL" } = .ok true :=
  ⟨(positionMatchesSlot_unknown_position "XX" { slotId := 1, slotType := "PG" }
      (by decide)).1 (by decide),
   (positionMatchesSlot_unknown_position "XX" { slotId := 2, slotType := "UTIL" }
      (by decide)).2 rfl⟩

/-- The search of `Array.prototype.some` succeeds exactly when one of the positions matches. -/
theorem somePositionMatches_spec (slot : ActivePlayerSlot)
    (positions : List String) (hp : ∀ position ∈ positions, position ∈ recognisedPositions)
    (htable : ∀ position ∈ recognisedPositions,
      positionMatchesSlot position slot = .ok (decide (SpecMatches position slot.slotType))) :
    somePositionMatches positions slot
      = .ok (decide (∃ position ∈ positions, SpecMatches position slot.slotType)) := by
  induction positions with
  | nil => simp [somePositionMatches]
  | cons position rest ih =>
    have hrest := ih (fun q hq => hp q (List.mem_cons_of_mem _ hq))
    have hhead := htable position (hp position (List.mem_cons_self _ _))
    unfold somePositionMatches
    rw [hhead]
    by_cases hm : SpecMatches position slot.slotType
    · simp [hm]
    · simp [hm, hrest]

/-- Claim C9: on the five positions and the eight slot types `positionMatchesSlot` returns
`true` exactly when the slot type is UTIL, or equals the position, or is G with position PG or
SG, or is F with position SF or PF; and `playerMatchesSlot` returns `true` exactly when at
least one of the player's positions matches in this sense. -/
theorem matching_table (slot : ActivePlayerSlot) (hs : slot.slotType ∈ slotTypes) :
    (∀ position ∈ recognisedPositions,
        positionMatchesSlot position slot = .ok (decide (SpecMatches position slot.slotType))) ∧
      (∀ player : Player, (∀ position ∈ player.positions, position ∈ recognisedPositions) →
        playerMatchesSlot player slot
          = .ok (decide (∃ position ∈ player.positions,
              SpecMatches position slot.slotType))) := by
  have htable : ∀ position ∈ recognisedPositions,
      positionMatchesSlot position slot
        = .ok (decide (SpecMatches position slot.slotType)) := by
    obtain ⟨slotId, slotType⟩ := slot
    intro position hpos
    simp only [slotTypes, SPECIFIC_SLOT_TYPES, GENERIC_SLOT_TYPES, SLOT_TYPE_POINT_GUARD,
      SLOT_TYPE_SHOOTING_GUARD, SLOT_TYPE_SMALL_FORWARD, SLOT_TYPE_POWER_FORWARD,
      SLOT_TYPE_CENTER, SLOT_TYPE_GUARD, SLOT_TYPE_FORWARD, SLOT_TYPE_UTIL, List.cons_append,
      List.nil_append, List.mem_cons, List.mem_singleton, List.not_mem_nil, or_false] at hs
    simp only [recognisedPositions, List.mem_cons, List.mem_singleton, List.not_mem_nil,
      or_false] at hpos
    rcases hs with rfl | rfl | rfl | rfl | rfl | rfl | rfl | rfl <;>
      rcases hpos with rfl | rfl | rfl | rfl | rfl <;> rfl
  exact ⟨htable, fun player hp => somePositionMatches_spec slot player.positions hp htable⟩

/-- Witness for C9: a player with positions SF and PG on a guard slot. -/
theorem matching_table_witness :
    positionMatchesSlot "SF" { slotId := 7, slotType := "G" } = .ok false ∧
      playerMatchesSlot (examplePlayer 1 ["SF", "PG"] "HEALTHY" none)
        { slotId := 7, slotType := "G" } = .ok true :=
  ⟨(matching_table { slotId := 7, slotType := "G" } (by decide)).1 "SF" (by decide),
   (matching_table { slotId := 7, slotType := "G" } (by decide)).2
      (examplePlayer 1 ["SF", "PG"] "HEALTHY" none) (by decide)⟩

/-! ## Health comparison (C10) -/

/-- Claim C10, as stated, fails: a healthy player compared with a day-to-day player gives
`false`, and the reverse comparison gives `true`. -/
theorem compareHealth_healthy_daytoday :
    (examplePlayer 1 ["PG"] PLAYER_HEALTH_HEALTHY none).compareHealth
        (examplePlayer 2 ["PG"] PLAYER_HEALTH_DAYTODAY none) = false ∧
      (examplePlayer 2 ["PG"] PLAYER_HEALTH_DAYTODAY none).compareHealth
        (examplePlayer 1 ["PG"] PLAYER_HEALTH_HEALTHY none) = true := by
  decide

/-- Claim C10, amended: for two players whose health is one of the four levels,
`a.compareHealth(b)` is true exactly when the health of `a` is the same as or worse than the
health of `b`, that is when the rank of `a` from best to worst is at least the rank of `b`. -/
theorem compareHealth_same_or_worse (a b : Player) (ha : a.health ∈ PLAYER_HEALTH_LEVELS)
    (hb : b.health ∈ PLAYER_HEALTH_LEVELS) :
    a.compareHealth b = true ↔ specHealthRank b.health ≤ specHealthRank a.health := by
  have key : ∀ x ∈ PLAYER_HEALTH_LEVELS, ∀ y ∈ PLAYER_HEALTH_LEVELS,
      (decide (jsIndexOf PLAYER_HEALTH_LEVELS x ≥ jsIndexOf PLAYER_HEALTH_LEVELS y) = true ↔
        specHealthRank y ≤ specHealthRank x) := by
    decide
  exact key a.health ha b.health hb

/-- Witness for C10: an out player compared with a day-to-day player. -/
theorem compareHealth_same_or_worse_witness :
    (examplePlayer 1 ["C"] "O" none).compareHealth (examplePlayer 2 ["C"] "DTD" none) = true :=
  (compareHealth_same_or_worse (examplePlayer 1 ["C"] "O" none)
    (examplePlayer 2 ["C"] "DTD" none) (by decide) (by decide)).2 (by decide)

/-! ## Evaluations of the pass (C1, C2, C5) -/

/-- Claim C1 fails on the code: `crowdedGuards` is well formed, every incumbent is eligible for
its slot and no player occupies two slots, and whatever the sort of the engine the output has
player 1 both in slot 1, where the fallback keeps it without removing it from the available
players, and in slot 3. -/
theorem calculateNewRoster_double_assignment (engine : ArraySort) :
    WellFormed crowdedGuards ∧ IncumbentsEligible crowdedGuards ∧
      calculateNewRoster engine crowdedGuards = .ok { crowdedGuards with
        mapping := [(1, some (examplePlayer 1 ["PG"] "DTD" (some "BOS"))),
          (2, some (examplePlayer 2 ["PG"] "HEALTHY" (some "BOS"))),
          (3, some (examplePlayer 1 ["PG"] "DTD" (some "BOS")))] } := by
  refine ⟨⟨by decide, by decide, by decide, by decide, by decide, by decide, by decide,
    by decide⟩, ?_, ?_⟩
  · intro s hs p hp
    simp only [crowdedGuards, List.mem_cons, List.mem_singleton, List.not_mem_nil,
      or_false] at hs
    rcases hs with rfl | rfl | rfl <;>
      simp [crowdedGuards, RosterState.currentPlayer, mapGet] at hp <;> subst hp <;> rfl
  · have hscan : findBestPlayerForSlot engine crowdedGuards ⟨1, "PG"⟩
        (crowdedGuards.players.filter fun p => p.isPlaying)
          = .ok (firstWithOtherSlotType ⟨1, "PG"⟩ (engine.sort healthComparator
              [(examplePlayer 1 ["PG"] "DTD" (some "BOS"), some ⟨1, "PG"⟩),
               (examplePlayer 2 ["PG"] "HEALTHY" (some "BOS"), some ⟨2, "PG"⟩)])) := rfl
    have hnone : findBestPlayerForSlot engine crowdedGuards ⟨1, "PG"⟩
        (crowdedGuards.players.filter fun p => p.isPlaying) = .ok none := by
      rw [hscan, (firstWithOtherSlotType_eq_none_iff _ _).2]
      intro x hx
      have hx2 := (engine.perm _ _).subset hx
      simp only [List.mem_cons, List.mem_singleton, List.not_mem_nil, or_false] at hx2
      rcases hx2 with rfl | rfl
      · exact ⟨_, rfl, rfl⟩
      · exact ⟨_, rfl, rfl⟩
    show assignSlots engine crowdedGuards (⟨1, "PG"⟩ :: [⟨2, "PG"⟩, ⟨3, "G"⟩])
      (crowdedGuards.players.filter fun p => p.isPlaying) _ = _
    rw [assignSlots]
    simp only [hnone]
    rfl

/-- Claim C2 fails on the code: in `benchedGuard` no playing player is eligible for slot 1 and
its occupant has no game, and whatever the sort of the engine the output maps slot 1 to `null`,
not to that occupant. -/
theorem calculateNewRoster_drops_inactive_incumbent (engine : ArraySort) :
    WellFormed benchedGuard ∧
      filterMatching (benchedGuard.players.filter fun p => p.isPlaying) ⟨1, "PG"⟩ = .ok [] ∧
      benchedGuard.currentPlayer ⟨1, "PG"⟩
        = some (some (examplePlayer 1 ["PG"] "HEALTHY" none)) ∧
      (examplePlayer 1 ["PG"] "HEALTHY" none).isPlaying = false ∧
      calculateNewRoster engine benchedGuard
        = .ok { benchedGuard with mapping := [(1, none)] } :=
  ⟨⟨by decide, by decide, by decide, by decide, by decide, by decide, by decide, by decide⟩,
    rfl, rfl, rfl, rfl⟩

/-- Claim C5 fails on the code: `twoUtil` is well formed, its only playing player holds the
utility slot 2, and whatever the sort of the engine the output has that player in the utility
slot 1, a different slot of the same type. -/
theorem calculateNewRoster_moves_between_same_type (engine : ArraySort) :
    WellFormed twoUtil ∧
      twoUtil.currentSlot (examplePlayer 1 ["PG"] "HEALTHY" (some "BOS")) = some ⟨2, "UTIL"⟩ ∧
      calculateNewRoster engine twoUtil = .ok { twoUtil with
        mapping := [(1, some (examplePlayer 1 ["PG"] "HEALTHY" (some "BOS"))), (2, none)] } :=
  ⟨⟨by decide, by decide, by decide, by decide, by decide, by decide, by decide, by decide⟩,
    rfl, rfl⟩

/-! ## Eligibility of the occupants (C3) -/

/-- Claim C3, as stated, fails: in `centerInGuardSlot` every position is recognised, no playing
player is eligible for the point-guard slot, the fallback keeps the playing center that holds
it, and that occupant of the output does not satisfy `playerMatchesSlot`. -/
theorem calculateNewRoster_keeps_ineligible_incumbent :
    RecognisedPositions centerInGuardSlot ∧
      calculateNewRoster v8ArraySort centerInGuardSlot = .ok centerInGuardSlot ∧
      centerInGuardSlot.currentPlayer ⟨1, "PG"⟩
        = some (some (examplePlayer 1 ["C"] "HEALTHY" (some "BOS"))) ∧
      playerMatchesSlot (examplePlayer 1 ["C"] "HEALTHY" (some "BOS")) ⟨1, "PG"⟩
        = .ok false :=
  ⟨by decide, rfl, rfl, rfl⟩

/-- Claim C3, amended: for every roster state with unique slot ids whose players all have
recognised positions and in which every incumbent is eligible for its slot, every slot of the
slot sequence that has a player in the output of `calculateNewRoster` has a player that
satisfies `playerMatchesSlot` for the slot. -/
theorem calculateNewRoster_occupants_eligible (engine : ArraySort)
    (rosterState out : RosterState) (hids : UniqueSlotIds rosterState)
    (_hpos : RecognisedPositions rosterState) (helig : IncumbentsEligible rosterState)
    (hout : calculateNewRoster engine rosterState = .ok out) :
    ∀ s ∈ rosterState.slots, ∀ p, out.currentPlayer s = some (some p) →
      playerMatchesSlot p s = .ok true :=
  assignSlots_occupants_match engine rosterState rosterState.slots _ _ out helig hids hout

/-- Witness for C3: the output of `twoUtil` has player 1 in the utility slot 1. -/
theorem calculateNewRoster_occupants_eligible_witness :
    playerMatchesSlot (examplePlayer 1 ["PG"] "HEALTHY" (some "BOS")) ⟨1, "UTIL"⟩
      = .ok true :=
  calculateNewRoster_occupants_eligible v8ArraySort twoUtil
    { twoUtil with
      mapping := [(1, some (examplePlayer 1 ["PG"] "HEALTHY" (some "BOS"))), (2, none)] }
    (by decide) (by decide)
    (by
      intro s hs p hp
      simp only [twoUtil, List.mem_cons, List.mem_singleton, List.not_mem_nil,
        or_false] at hs
      rcases hs with rfl | rfl
      · simp [twoUtil, RosterState.currentPlayer, mapGet] at hp
      · simp [twoUtil, RosterState.currentPlayer, mapGet] at hp
        subst hp
        rfl)
    rfl ⟨1, "UTIL"⟩ (by decide) (examplePlayer 1 ["PG"] "HEALTHY" (some "BOS")) rfl

/-! ## Stability of the incumbent (C4) -/

/-- Claim C4, as stated, fails: `utilBeforeGuard` is well formed and has room for everyone, the
incumbent of slot 2 is playing, healthy and eligible for it, and the output maps slot 2 to
`null`: the utility slot 1, handled first, has taken the player. -/
theorem calculateNewRoster_earlier_slot_takes_incumbent :
    WellFormed utilBeforeGuard ∧ utilBeforeGuard.hasRoomForEveryone = true ∧
      utilBeforeGuard.currentPlayer ⟨2, "PG"⟩
        = some (some (examplePlayer 1 ["PG"] "HEALTHY" (some "BOS"))) ∧
      (examplePlayer 1 ["PG"] "HEALTHY" (some "BOS")).isPlaying = true ∧
      playerMatchesSlot (examplePlayer 1 ["PG"] "HEALTHY" (some "BOS")) ⟨2, "PG"⟩
        = .ok true ∧
      calculateNewRoster v8ArraySort utilBeforeGuard = .ok { utilBeforeGuard with
        mapping := [(1, some (examplePlayer 1 ["PG"] "HEALTHY" (some "BOS"))), (2, none)] } :=
  ⟨⟨by decide, by decide, by decide, by decide, by decide, by decide, by decide, by decide⟩,
    rfl, rfl, rfl, rfl, rfl⟩

/-- Claim C4, amended: for every well-formed roster state for which `hasRoomForEveryone`
holds, every slot whose incumbent is a playing, healthy player eligible for that slot still
maps to that incumbent in the output of `calculateNewRoster`, unless the output has that
incumbent in a slot that comes before it in the slot sequence. -/
theorem calculateNewRoster_incumbent_stays (engine : ArraySort)
    (rosterState out : RosterState) (pre post : List ActivePlayerSlot)
    (slot : ActivePlayerSlot) (p : Player) (hwf : WellFormed rosterState)
    (hroom : rosterState.hasRoomForEveryone = true)
    (hslots : rosterState.slots = pre ++ slot :: post)
    (hcur : rosterState.currentPlayer slot = some (some p))
    (hplaying : p.isPlaying = true) (_hhealthy : p.health = PLAYER_HEALTH_HEALTHY)
    (helig : playerMatchesSlot p slot = .ok true)
    (hout : calculateNewRoster engine rosterState = .ok out) :
    out.currentPlayer slot = some (some p) ∨
      ∃ s ∈ pre, out.currentPlayer s = some (some p) := by
  have hp : p ∈ rosterState.players :=
    hwf.occupantsArePlayers p (mem_filterMap_of_mapGet _ _ _ hcur)
  have hnodup : ((pre ++ slot :: post).map fun s => s.slotId).Nodup := by
    rw [← hslots]
    exact hwf.uniqueSlotIds
  unfold calculateNewRoster at hout
  rw [hslots] at hout
  exact assignSlots_incumbent engine rosterState hroom hwf.uniquePlayerIds
    hwf.occupantsArePlayers slot post p hcur helig pre _ _ out
    (fun q hq => (List.mem_filter.1 hq).1) hnodup hout
    (List.mem_filter.2 ⟨hp, hplaying⟩)

/-- Witness for C4: in `roomyUtil` the healthy incumbent of slot 2 keeps its slot. -/
theorem calculateNewRoster_incumbent_stays_witness :
    RosterState.currentPlayer roomyUtil ⟨2, "UTIL"⟩
        = some (some (examplePlayer 2 ["C"] "HEALTHY" (some "BOS"))) ∨
      ∃ s ∈ [(⟨1, "UTIL"⟩ : ActivePlayerSlot)], RosterState.currentPlayer roomyUtil s
        = some (some (examplePlayer 2 ["C"] "HEALTHY" (some "BOS"))) :=
  calculateNewRoster_incumbent_stays v8ArraySort roomyUtil roomyUtil [⟨1, "UTIL"⟩] []
    ⟨2, "UTIL"⟩ (examplePlayer 2 ["C"] "HEALTHY" (some "BOS"))
    ⟨by decide, by decide, by decide, by decide, by decide, by decide, by decide, by decide⟩
    rfl rfl rfl rfl rfl rfl rfl

/-! ## Selection for one slot (C6, C7) -/

/-- Claim C6 fails on the code under V8: in `openGuardSlot` two pool players are eligible for
the empty slot 1 and neither holds a slot; the comparator never answers a negative number, the
sort leaves the array as it is, and `findBestPlayerForSlot` returns the day-to-day player,
first in the pool, though a healthy player is eligible. -/
theorem findBestPlayerForSlot_ignores_health :
    filterMatching openGuardSlot.players ⟨1, "PG"⟩ = .ok openGuardSlot.players ∧
      openGuardSlot.currentPlayer ⟨1, "PG"⟩ = some none ∧
      (∀ p ∈ openGuardSlot.players, openGuardSlot.currentSlot p = none) ∧
      (∀ a b, 0 ≤ healthComparator a b) ∧
      v8ArraySort.sort healthComparator
          (openGuardSlot.players.map fun p => (p, openGuardSlot.currentSlot p))
        = openGuardSlot.players.map (fun p => (p, openGuardSlot.currentSlot p)) ∧
      findBestPlayerForSlot v8ArraySort openGuardSlot ⟨1, "PG"⟩ openGuardSlot.players
        = .ok (some (examplePlayer 1 ["PG"] "DTD" (some "BOS"))) := by
  refine ⟨rfl, rfl, by decide, ?_, rfl, rfl⟩
  intro a b
  unfold healthComparator
  split <;> decide

/-- Claim C7: when the incumbent of the slot is a player, has the `playerId` of an eligible
pool player, and either there is room for everyone or its `playerId` is among the healthiest
eligible pool players, `findBestPlayerForSlot` returns a player with the incumbent's
`playerId`: the incumbent object itself when at least two pool players are eligible or when the
incumbent object is an eligible pool player.  No condition on health is needed when there is
room for everyone. -/
theorem findBestPlayerForSlot_keeps_incumbent (engine : ArraySort) (rosterState : RosterState)
    (slot : ActivePlayerSlot) (availablePlayers possiblePlayers : List Player)
    (currentPlayer : Player)
    (hposs : filterMatching availablePlayers slot = .ok possiblePlayers)
    (hcur : rosterState.currentPlayer slot = some (some currentPlayer))
    (hid : currentPlayer.playerId ∈ possiblePlayers.map fun p => p.playerId)
    (hroom : rosterState.hasRoomForEveryone = true ∨
      currentPlayer.playerId ∈ (getHealthiestPlayers possiblePlayers).map fun p => p.playerId) :
    ∃ p, findBestPlayerForSlot engine rosterState slot availablePlayers = .ok (some p) ∧
      p.playerId = currentPlayer.playerId ∧
      (2 ≤ possiblePlayers.length ∨ currentPlayer ∈ possiblePlayers → p = currentPlayer) := by
  exact findBestPlayerForSlot_of_incumbent engine rosterState slot availablePlayers
    possiblePlayers currentPlayer hposs hcur hid hroom

/-- Witness for C7: in `roomyUtil` there is room for everyone, and the day-to-day incumbent of
slot 1 is returned although a healthy player is eligible too. -/
theorem findBestPlayerForSlot_keeps_incumbent_witness :
    (examplePlayer 2 ["C"] "HEALTHY" (some "BOS")) ∈ roomyUtil.players ∧
      findBestPlayerForSlot v8ArraySort roomyUtil ⟨1, "UTIL"⟩ roomyUtil.players
        = .ok (some (examplePlayer 1 ["PG"] "DTD" (some "BOS"))) := by
  obtain ⟨p, hp, _, hobj⟩ := findBestPlayerForSlot_keeps_incumbent v8ArraySort roomyUtil
    ⟨1, "UTIL"⟩ roomyUtil.players roomyUtil.players (examplePlayer 1 ["PG"] "DTD" (some "BOS"))
    rfl rfl (by decide) (Or.inl rfl)
  rw [hobj (Or.inl (by decide))] at hp
  exact ⟨by decide, hp⟩

/-! ## Health grouping (C11) -/

/-- Two of the four health levels with the same rank are the same level. -/
theorem specHealthRank_injective (x y : String) (hx : x ∈ PLAYER_HEALTH_LEVELS)
    (hy : y ∈ PLAYER_HEALTH_LEVELS) (h : specHealthRank x = specHealthRank y) : x = y := by
  have key : ∀ a ∈ PLAYER_HEALTH_LEVELS, ∀ b ∈ PLAYER_HEALTH_LEVELS,
      specHealthRank a = specHealthRank b → a = b := by
    decide
  exact key x hx y hy h

/-- When a level is present among the players and no player has a better level, the players at
that level are the players that no player is healthier than. -/
theorem filter_level_eq_filter_best (players : List Player)
    (hlev : ∀ p ∈ players, p.health ∈ PLAYER_HEALTH_LEVELS) (level : String)
    (hL : level ∈ PLAYER_HEALTH_LEVELS) (hne : ∃ w ∈ players, w.health = level)
    (hlow : ∀ q ∈ players, specHealthRank level ≤ specHealthRank q.health) :
    (players.filter fun p => decide (p.health = level)) =
      players.filter fun p =>
        decide (∀ q ∈ players, specHealthRank p.health ≤ specHealthRank q.health) := by
  apply List.filter_congr
  intro p hp
  obtain ⟨w, hw, hwL⟩ := hne
  by_cases hpl : p.health = level
  · have hbest : ∀ q ∈ players, specHealthRank p.health ≤ specHealthRank q.health := by
      rw [hpl]
      exact hlow
    simp only [hpl, decide_True]
    exact (decide_eq_true (hpl ▸ hbest)).symm
  · have hnot : ¬ ∀ q ∈ players, specHealthRank p.health ≤ specHealthRank q.health := by
      intro hbest
      have h1 := hbest w hw
      rw [hwL] at h1
      have h2 := hlow p hp
      exact hpl (specHealthRank_injective _ _ (hlev p hp) hL (Nat.le_antisymm h1 h2))
    rw [decide_eq_false hpl, decide_eq_false hnot]

/-- The loop of `getHealthiestPlayers` on the four levels: the input is empty and so is the
result, or the result is the players at a level that is present and that no player is healthier
than. -/
theorem getHealthiestPlayers_level (players : List Player)
    (hlev : ∀ p ∈ players, p.health ∈ PLAYER_HEALTH_LEVELS) :
    (players = [] ∧ getHealthiestPlayers players = []) ∨
      ∃ level ∈ PLAYER_HEALTH_LEVELS,
        getHealthiestPlayers players = players.filter (fun p => decide (p.health = level)) ∧
        (∃ w ∈ players, w.health = level) ∧
        ∀ q ∈ players, specHealthRank level ≤ specHealthRank q.health := by
  have hex : ∀ level : String,
      (players.filter fun p => decide (p.health = level)).length > 0 →
        ∃ w ∈ players, w.health = level := by
    intro level hlen
    obtain ⟨w, hw⟩ := List.exists_mem_of_length_pos hlen
    rw [List.mem_filter] at hw
    exact ⟨w, hw.1, of_decide_eq_true hw.2⟩
  have hnone : ∀ level : String,
      ¬ (players.filter fun p => decide (p.health = level)).length > 0 →
        ∀ q ∈ players, q.health ≠ level := by
    intro level hlen q hq heq
    apply hlen
    apply List.length_pos_of_mem
    exact List.mem_filter.2 ⟨hq, decide_eq_true heq⟩
  simp only [getHealthiestPlayers, healthiestAmong, PLAYER_HEALTH_LEVELS]
  by_cases h0 : (players.filter fun p => decide (p.health = PLAYER_HEALTH_HEALTHY)).length > 0
  · right
    refine ⟨PLAYER_HEALTH_HEALTHY, by decide, by rw [if_pos h0], hex _ h0, ?_⟩
    intro q _
    exact Nat.zero_le _
  · rw [if_neg h0]
    by_cases h1 : (players.filter fun p =>
        decide (p.health = PLAYER_HEALTH_DAYTODAY)).length > 0
    · right
      refine ⟨PLAYER_HEALTH_DAYTODAY, by decide, by rw [if_pos h1], hex _ h1, ?_⟩
      intro q hq
      have hq0 := hnone _ h0 q hq
      have hql := hlev q hq
      simp only [PLAYER_HEALTH_LEVELS, List.mem_cons, List.mem_singleton, List.not_mem_nil,
        or_false] at hql
      rcases hql with h | h | h | h
      · exact absurd h hq0
      · rw [h]
      · rw [h]; decide
      · rw [h]; decide
    · rw [if_neg h1]
      by_cases h2 : (players.filter fun p => decide (p.health = PLAYER_HEALTH_OUT)).length > 0
      · right
        refine ⟨PLAYER_HEALTH_OUT, by decide, by rw [if_pos h2], hex _ h2, ?_⟩
        intro q hq
        have hq0 := hnone _ h0 q hq
        have hq1 := hnone _ h1 q hq
        have hql := hlev q hq
        simp only [PLAYER_HEALTH_LEVELS, List.mem_cons, List.mem_singleton, List.not_mem_nil,
          or_false] at hql
        rcases hql with h | h | h | h
        · exact absurd h hq0
        · exact absurd h hq1
        · rw [h]
        · rw [h]; decide
      · rw [if_neg h2]
        by_cases h3 : (players.filter fun p =>
            decide (p.health = PLAYER_HEALTH_SUSPENDED)).length > 0
        · right
          refine ⟨PLAYER_HEALTH_SUSPENDED, by decide, by rw [if_pos h3], hex _ h3, ?_⟩
          intro q hq
          have hq0 := hnone _ h0 q hq
          have hq1 := hnone _ h1 q hq
          have hq2 := hnone _ h2 q hq
          have hql := hlev q hq
          simp only [PLAYER_HEALTH_LEVELS, List.mem_cons, List.mem_singleton,
            List.not_mem_nil, or_false] at hql
          rcases hql with h | h | h | h
          · exact absurd h hq0
          · exact absurd h hq1
          · exact absurd h hq2
          · rw [h]
        · left
          rw [if_neg h3]
          refine ⟨?_, rfl⟩
          cases players with
          | nil => rfl
          | cons q rest =>
            exfalso
            have hq : q ∈ q :: rest := List.mem_cons_self _ _
            have hql := hlev q hq
            simp only [PLAYER_HEALTH_LEVELS, List.mem_cons, List.mem_singleton,
              List.not_mem_nil, or_false] at hql
            rcases hql with h | h | h | h
            · exact hnone _ h0 q hq h
            · exact hnone _ h1 q hq h
            · exact hnone _ h2 q hq h
            · exact hnone _ h3 q hq h

/-- Claim C11: for players whose health values are among the four levels,
`getHealthiestPlayers` returns, in input order, exactly the players that no player of the input
is healthier than; all returned players share one health level, no input player is strictly
healthier than a returned one, and the result is empty exactly when the input is empty. -/
theorem getHealthiestPlayers_best (players : List Player)
    (hlev : ∀ p ∈ players, p.health ∈ PLAYER_HEALTH_LEVELS) :
    getHealthiestPlayers players
        = players.filter (fun p =>
            decide (∀ q ∈ players, specHealthRank p.health ≤ specHealthRank q.health)) ∧
      (∀ p ∈ getHealthiestPlayers players, ∀ q ∈ getHealthiestPlayers players,
        p.health = q.health) ∧
      (∀ p ∈ getHealthiestPlayers players, ∀ q ∈ players,
        specHealthRank p.health ≤ specHealthRank q.health) ∧
      (getHealthiestPlayers players = [] ↔ players = []) := by
  rcases getHealthiestPlayers_level players hlev with
    ⟨hnil, hres⟩ | ⟨level, hL, hres, hne, hlow⟩
  · rw [hres, hnil]
    simp
  · have hmem : ∀ p ∈ getHealthiestPlayers players, p.health = level := by
      intro p hp
      rw [hres, List.mem_filter] at hp
      exact of_decide_eq_true hp.2
    refine ⟨?_, ?_, ?_, ?_⟩
    · rw [hres]
      exact filter_level_eq_filter_best players hlev level hL hne hlow
    · intro p hp q hq
      rw [hmem p hp, hmem q hq]
    · intro p hp q hq
      rw [hmem p hp]
      exact hlow q hq
    · obtain ⟨w, hw, hwL⟩ := hne
      constructor
      · intro hempty
        exfalso
        have hwin : w ∈ getHealthiestPlayers players := by
          rw [hres]
          exact List.mem_filter.2 ⟨hw, decide_eq_true hwL⟩
        rw [hempty] at hwin
        exact List.not_mem_nil _ hwin
      · intro hempty
        rw [hempty] at hw
        exact absurd hw (List.not_mem_nil _)

/-- Witness for C11: of a day-to-day, a healthy, an out and a second healthy player the two
healthy ones are returned, in input order. -/
theorem getHealthiestPlayers_best_witness :
    getHealthiestPlayers [examplePlayer 1 ["PG"] "DTD" none, examplePlayer 2 ["C"] "HEALTHY" none,
        examplePlayer 3 ["C"] "O" none, examplePlayer 4 ["SF"] "HEALTHY" none]
      = [examplePlayer 2 ["C"] "HEALTHY" none, examplePlayer 4 ["SF"] "HEALTHY" none] :=
  (getHealthiestPlayers_best [examplePlayer 1 ["PG"] "DTD" none,
    examplePlayer 2 ["C"] "HEALTHY" none, examplePlayer 3 ["C"] "O" none,
    examplePlayer 4 ["SF"] "HEALTHY" none] (by decide)).1.trans (by decide)

/-! ## A slot without an entry in the mapping (C12) -/

/-- Claim C12 fails on the code: every position in `missingKey` is recognised, its mapping has
no entry for slot 1, two playing players are eligible for the slot, and whatever the sort of
the engine `calculateNewRoster` raises a `TypeError`: `currentPlayer` is `undefined`, which
passes the test `currentPlayer !== null`, and `currentPlayer.playerId` is read. -/
theorem calculateNewRoster_missing_key_raises (engine : ArraySort) :
    RecognisedPositions missingKey ∧
      missingKey.currentPlayer ⟨1, "PG"⟩ = none ∧
      filterMatching (missingKey.players.filter fun p => p.isPlaying) ⟨1, "PG"⟩
        = .ok missingKey.players ∧
      calculateNewRoster engine missingKey = .error .typeError :=
  ⟨by decide, rfl, rfl, rfl⟩

/-! ## Equivalence of roster states (C14) -/

/-- Claim C14 fails on the code: `unseated`, `seated` and `vacant` have the same slot
sequence; slot 1 holds a player in `seated` and nobody in `unseated`, and
`unseated.isEquivalentTo(seated)` is `true` while the reverse comparison is `false`; slot 1
holds nobody in `vacant` and in `unseated`, and `vacant.isEquivalentTo(unseated)` is
`false`. -/
theorem isEquivalentTo_not_symmetric :
    unseated.slots = seated.slots ∧ unseated.slots = vacant.slots ∧
      unseated.currentPlayer ⟨1, "PG"⟩ = none ∧
      seated.currentPlayer ⟨1, "PG"⟩
        = some (some (examplePlayer 1 ["PG"] "HEALTHY" (some "BOS"))) ∧
      vacant.currentPlayer ⟨1, "PG"⟩ = some none ∧
      unseated.isEquivalentTo seated = true ∧ seated.isEquivalentTo unseated = false ∧
      vacant.isEquivalentTo unseated = false ∧ unseated.isEquivalentTo vacant = true := by
  decide

/-! ## The player returned for a slot is an eligible pool player (C20) -/

/-- Claim C20: when `findBestPlayerForSlot` returns a player, on a pool with recognised
positions, the `playerId` of that player is the `playerId` of a member of the pool that
satisfies `playerMatchesSlot` for the slot. -/
theorem findBestPlayerForSlot_returns_eligible_id (engine : ArraySort)
    (rosterState : RosterState) (slot : ActivePlayerSlot) (availablePlayers : List Player)
    (p : Player)
    (_hpos : ∀ q ∈ availablePlayers, ∀ position ∈ q.positions,
      position ∈ recognisedPositions)
    (h : findBestPlayerForSlot engine rosterState slot availablePlayers = .ok (some p)) :
    ∃ q ∈ availablePlayers, playerMatchesSlot q slot = .ok true ∧
      q.playerId = p.playerId := by
  rcases findBestPlayerForSlot_some engine rosterState slot availablePlayers p h with
    ⟨hp, hm⟩ | ⟨_, q, hq, hm, hid⟩
  · exact ⟨p, hp, hm, rfl⟩
  · exact ⟨q, hq, hm, hid⟩

/-- Witness for C20: in `roomyUtil` the player returned for slot 1 has the `playerId` 1 of a
pool player eligible for the slot. -/
theorem findBestPlayerForSlot_returns_eligible_id_witness :
    ∃ q ∈ roomyUtil.players, playerMatchesSlot q ⟨1, "UTIL"⟩ = .ok true ∧
      q.playerId = (examplePlayer 1 ["PG"] "DTD" (some "BOS")).playerId :=
  findBestPlayerForSlot_returns_eligible_id v8ArraySort roomyUtil ⟨1, "UTIL"⟩
    roomyUtil.players (examplePlayer 1 ["PG"] "DTD" (some "BOS")) (by decide) rfl

/-! ## The current slot of a player (C15) -/

/-- In a sequence with unique slot ids, `getSlotById` of the id of a slot of the sequence
answers that slot. -/
theorem getSlotById_of_mem (rs : RosterState) (hids : UniqueSlotIds rs)
    (s : ActivePlayerSlot) (hs : s ∈ rs.slots) : rs.getSlotById s.slotId = some s := by
  unfold RosterState.getSlotById
  unfold UniqueSlotIds at hids
  generalize rs.slots = slots at hids hs
  induction slots with
  | nil => simp at hs
  | cons t rest ih =>
    simp only [List.map_cons, List.nodup_cons] at hids
    by_cases hts : t.slotId = s.slotId
    · rcases List.mem_cons.1 hs with rfl | hs2
      · simp [List.find?_cons]
      · exfalso
        apply hids.1
        rw [hts]
        exact List.mem_map.2 ⟨s, hs2, rfl⟩
    · rcases List.mem_cons.1 hs with rfl | hs2
      · exact absurd rfl hts
      · simp only [List.find?_cons, hts, decide_False]
        exact ih hids.2 hs2

/-- When the player ids held by a mapping are distinct, the entries that hold a given
`playerId` are at most one: the filter of `currentSlot` keeps that entry alone. -/
theorem filter_holder_eq_singleton (playerId : Nat) (m : List (Nat × Option Player))
    (hone : ((m.filterMap fun e => e.2).map fun p => p.playerId).Nodup)
    (e : Nat × Option Player) (he : e ∈ m) (q : Player) (hq : e.2 = some q)
    (hid : q.playerId = playerId) :
    (m.filter fun e =>
      match e.2 with
      | none => false
      | some p => decide (playerId = p.playerId)) = [e] := by
  induction m with
  | nil => simp at he
  | cons x rest ih =>
    obtain ⟨k, v⟩ := x
    cases v with
    | none =>
      simp only [List.filterMap_cons] at hone
      rcases List.mem_cons.1 he with rfl | he2
      · simp at hq
      · simp only [List.filter_cons, Bool.false_eq_true, if_false]
        exact ih hone he2
    | some r =>
      simp only [List.filterMap_cons, List.map_cons, List.nodup_cons] at hone
      by_cases hr : playerId = r.playerId
      · have hrest : (rest.filter fun e =>
            match e.2 with
            | none => false
            | some p => decide (playerId = p.playerId)) = [] := by
          rw [List.filter_eq_nil_iff]
          intro e2 he2
          cases hv : e2.2 with
          | none => simp
          | some r2 =>
            simp only [decide_eq_true_eq]
            intro hr2
            apply hone.1
            rw [← hr, hr2]
            refine List.mem_map.2 ⟨r2, List.mem_filterMap.2 ⟨e2, he2, hv⟩, rfl⟩
        rcases List.mem_cons.1 he with rfl | he2
        · subst hr
          simp only [List.filter_cons, decide_True, if_true, hrest]
        · exfalso
          apply hone.1
          rw [← hr, ← hid]
          exact List.mem_map.2 ⟨q, List.mem_filterMap.2 ⟨e, he2, hq⟩, rfl⟩
      · rcases List.mem_cons.1 he with rfl | he2
        · simp only [Option.some.injEq] at hq
          subst hq
          exact absurd hid.symm hr
        · simp only [List.filter_cons, hr, decide_False, Bool.false_eq_true, if_false]
          exact ih hone.2 he2

/-- Claim C15: in a roster state with unique slot ids whose mapping keys are ids of slots of
the sequence and in which no `playerId` is held by two entries, `currentSlot(player)` returns
the slot whose entry holds a player with the `playerId` of `player`, and returns `null`
exactly when no entry holds such a player. -/
theorem currentSlot_spec (rs : RosterState) (player : Player) (hids : UniqueSlotIds rs)
    (hkeys : ∀ e ∈ rs.mapping, e.1 ∈ rs.slots.map fun s => s.slotId)
    (hone : NoPlayerInTwoSlots rs) :
    (∀ s, rs.currentSlot player = some s ↔
        s ∈ rs.slots ∧
          ∃ q, (s.slotId, some q) ∈ rs.mapping ∧ q.playerId = player.playerId) ∧
      (rs.currentSlot player = none ↔
        ¬ ∃ e ∈ rs.mapping, ∃ q, e.2 = some q ∧ q.playerId = player.playerId) := by
  have hback : ∀ s, s ∈ rs.slots →
      (∃ q, (s.slotId, some q) ∈ rs.mapping ∧ q.playerId = player.playerId) →
      rs.currentSlot player = some s := by
    intro s hs hq
    obtain ⟨q, hmem, hid⟩ := hq
    unfold RosterState.currentSlot
    dsimp only
    rw [filter_holder_eq_singleton player.playerId rs.mapping hone _ hmem q rfl hid]
    simp only [List.map_cons, List.map_nil, List.head?_cons]
    exact getSlotById_of_mem rs hids s hs
  have hforth : ∀ s, rs.currentSlot player = some s →
      s ∈ rs.slots ∧
        ∃ q, (s.slotId, some q) ∈ rs.mapping ∧ q.playerId = player.playerId := by
    intro s h
    unfold RosterState.currentSlot at h
    dsimp only at h
    cases hfil : (rs.mapping.filter fun e =>
        match e.2 with
        | none => false
        | some p => decide (player.playerId = p.playerId)) with
    | nil => rw [hfil] at h; simp at h
    | cons e rest =>
      rw [hfil] at h
      simp only [List.map_cons, List.head?_cons] at h
      have he : e ∈ rs.mapping.filter fun e =>
          match e.2 with
          | none => false
          | some p => decide (player.playerId = p.playerId) := by
        rw [hfil]
        exact List.mem_cons_self _ _
      rw [List.mem_filter] at he
      obtain ⟨k, v⟩ := e
      unfold RosterState.getSlotById at h
      have hs := List.mem_of_find?_eq_some h
      have hk := List.find?_some h
      simp only [decide_eq_true_eq] at hk
      cases v with
      | none => simp at he
      | some q =>
        refine ⟨hs, q, ?_, ?_⟩
        · rw [hk]
          exact he.1
        · have := he.2
          simp only [decide_eq_true_eq] at this
          exact this.symm
  refine ⟨fun s => ⟨hforth s, fun h => hback s h.1 h.2⟩, ?_⟩
  constructor
  · rintro hnone ⟨e, he, q, hq, hid⟩
    obtain ⟨s, hs, hsid⟩ := List.mem_map.1 (hkeys e he)
    have hsome := hback s hs ⟨q, by
      obtain ⟨k, v⟩ := e
      simp only at hq hsid
      subst hq
      rw [hsid]
      exact he, hid⟩
    rw [hnone] at hsome
    simp at hsome
  · intro hno
    cases hcs : rs.currentSlot player with
    | none => rfl
    | some s =>
      exfalso
      obtain ⟨_, q, hmem, hid⟩ := hforth s hcs
      exact hno ⟨_, hmem, q, rfl, hid⟩

/-- Witness for C15: in `crowdedGuards` player 2 holds slot 2, and a player with the
`playerId` 3 holds no slot. -/
theorem currentSlot_spec_witness :
    crowdedGuards.currentSlot (examplePlayer 2 ["PG"] "HEALTHY" (some "BOS"))
        = some ⟨2, "PG"⟩ ∧
      crowdedGuards.currentSlot (examplePlayer 3 ["C"] "O" (some "BOS")) = none :=
  ⟨((currentSlot_spec crowdedGuards (examplePlayer 2 ["PG"] "HEALTHY" (some "BOS"))
      (by decide) (by decide) (by decide)).1 ⟨2, "PG"⟩).2
      ⟨by decide, examplePlayer 2 ["PG"] "HEALTHY" (some "BOS"), by decide, rfl⟩,
   (currentSlot_spec crowdedGuards (examplePlayer 3 ["C"] "O" (some "BOS"))
      (by decide) (by decide) (by decide)).2.2 (by
        rintro ⟨e, he, q, hq, hid⟩
        simp only [crowdedGuards, List.mem_cons, List.mem_singleton, List.not_mem_nil,
          or_false] at he
        rcases he with rfl | rfl | rfl
        · simp only [Option.some.injEq] at hq
          subst hq
          exact absurd hid (by decide)
        · simp only [Option.some.injEq] at hq
          subst hq
          exact absurd hid (by decide)
        · simp at hq)⟩

/-! ## When no player is returned for a slot (C16) -/

/-- On a recognised position `positionMatchesSlot` raises no error, whatever the slot. -/
theorem positionMatchesSlot_ok (position : String) (slot : ActivePlayerSlot)
    (hpos : position ∈ recognisedPositions) :
    ∃ b, positionMatchesSlot position slot = .ok b := by
  simp only [recognisedPositions, List.mem_cons, List.mem_singleton, List.not_mem_nil,
    or_false] at hpos
  unfold positionMatchesSlot
  dsimp only
  by_cases hu : slot.slotType = "UTIL"
  · exact ⟨true, by rw [if_pos hu]⟩
  · rw [if_neg hu]
    rcases hpos with rfl | rfl | rfl | rfl | rfl
    · exact ⟨_, rfl⟩
    · exact ⟨_, rfl⟩
    · exact ⟨_, rfl⟩
    · exact ⟨_, rfl⟩
    · exact ⟨_, rfl⟩

/-- On a player with recognised positions `playerMatchesSlot` raises no error. -/
theorem playerMatchesSlot_ok (player : Player) (slot : ActivePlayerSlot)
    (hpos : ∀ position ∈ player.positions, position ∈ recognisedPositions) :
    ∃ b, playerMatchesSlot player slot = .ok b := by
  unfold playerMatchesSlot
  generalize player.positions = positions at hpos
  induction positions with
  | nil => exact ⟨false, rfl⟩
  | cons position rest ih =>
    obtain ⟨b, hb⟩ := positionMatchesSlot_ok position slot
      (hpos position (List.mem_cons_self _ _))
    unfold somePositionMatches
    rw [hb]
    cases b with
    | true => exact ⟨true, rfl⟩
    | false => exact ih (fun q hq => hpos q (List.mem_cons_of_mem _ hq))

/-- On a pool with recognised positions the filter of `findBestPlayerForSlot` raises no
error. -/
theorem filterMatching_ok (players : List Player) (slot : ActivePlayerSlot)
    (hpos : ∀ p ∈ players, ∀ position ∈ p.positions, position ∈ recognisedPositions) :
    ∃ possible, filterMatching players slot = .ok possible := by
  induction players with
  | nil => exact ⟨[], rfl⟩
  | cons p rest ih =>
    obtain ⟨b, hb⟩ := playerMatchesSlot_ok p slot (hpos p (List.mem_cons_self _ _))
    obtain ⟨kept, hkept⟩ := ih (fun q hq => hpos q (List.mem_cons_of_mem _ hq))
    unfold filterMatching
    rw [hb, hkept]
    exact ⟨_, rfl⟩

/-- With two or more eligible players and a stability rule that does not keep the current
player, `findBestPlayerForSlot` returns what the scan of the sorted array finds. -/
theorem findBestPlayerForSlot_scan (engine : ArraySort) (rosterState : RosterState)
    (slot : ActivePlayerSlot) (availablePlayers possiblePlayers : List Player)
    (hposs : filterMatching availablePlayers slot = .ok possiblePlayers)
    (h2 : 2 ≤ possiblePlayers.length)
    (hkeep : keepsCurrentPlayer rosterState slot possiblePlayers = .ok false) :
    findBestPlayerForSlot engine rosterState slot availablePlayers
      = .ok (firstWithOtherSlotType slot (engine.sort healthComparator
          (possiblePlayers.map fun p => (p, rosterState.currentSlot p)))) := by
  unfold findBestPlayerForSlot
  rw [hposs]
  unfold keepsCurrentPlayer at hkeep
  match possiblePlayers, h2, hkeep with
  | [], h2, _ => simp at h2
  | [_], h2, _ => simp at h2
  | x :: y :: rest, _, hkeep =>
    dsimp only at hkeep ⊢
    cases hcur : rosterState.currentPlayer slot with
    | none => rw [hcur] at hkeep; simp at hkeep
    | some currentPlayer =>
      rw [hcur] at hkeep
      simp only [Except.ok.injEq] at hkeep
      dsimp only
      rw [if_neg (by rw [hkeep]; simp)]

/-- With two or more eligible players and a stability rule that keeps the current player,
`findBestPlayerForSlot` returns the current player, and with a stability rule that raises an
error it raises that error. -/
theorem findBestPlayerForSlot_not_scan (engine : ArraySort) (rosterState : RosterState)
    (slot : ActivePlayerSlot) (availablePlayers possiblePlayers : List Player)
    (hposs : filterMatching availablePlayers slot = .ok possiblePlayers)
    (h2 : 2 ≤ possiblePlayers.length)
    (hkeep : keepsCurrentPlayer rosterState slot possiblePlayers ≠ .ok false) :
    findBestPlayerForSlot engine rosterState slot availablePlayers ≠ .ok none := by
  unfold findBestPlayerForSlot
  rw [hposs]
  unfold keepsCurrentPlayer at hkeep
  match possiblePlayers, h2, hkeep with
  | [], h2, _ => simp at h2
  | [_], h2, _ => simp at h2
  | x :: y :: rest, _, hkeep =>
    dsimp only at hkeep ⊢
    cases hcur : rosterState.currentPlayer slot with
    | none => simp
    | some currentPlayer =>
      rw [hcur] at hkeep
      dsimp only at hkeep ⊢
      cases currentPlayer with
      | none => simp at hkeep
      | some c =>
        dsimp only at hkeep ⊢
        split
        · simp
        · next hcond =>
          exfalso
          apply hkeep
          simp only [Bool.not_eq_true] at hcond
          rw [hcond]

/-- Claim C16: on a pool with recognised positions the filter yields the eligible pool
players, and `findBestPlayerForSlot` returns `null` exactly when no pool player is eligible, or
at least two are eligible, the test of the stability rule answers `false`, and every eligible
pool player holds a slot of the type of the slot. -/
theorem findBestPlayerForSlot_absent_iff (engine : ArraySort) (rosterState : RosterState)
    (slot : ActivePlayerSlot) (availablePlayers : List Player)
    (hpos : ∀ p ∈ availablePlayers, ∀ position ∈ p.positions,
      position ∈ recognisedPositions) :
    ∃ possiblePlayers, filterMatching availablePlayers slot = .ok possiblePlayers ∧
      (∀ p, p ∈ possiblePlayers ↔
        p ∈ availablePlayers ∧ playerMatchesSlot p slot = .ok true) ∧
      (findBestPlayerForSlot engine rosterState slot availablePlayers = .ok none ↔
        possiblePlayers = [] ∨
          (2 ≤ possiblePlayers.length ∧
            keepsCurrentPlayer rosterState slot possiblePlayers = .ok false ∧
            ∀ p ∈ possiblePlayers, ∃ cs, rosterState.currentSlot p = some cs ∧
              cs.slotType = slot.slotType)) := by
  obtain ⟨possiblePlayers, hposs⟩ := filterMatching_ok availablePlayers slot hpos
  refine ⟨possiblePlayers, hposs, filterMatching_mem slot availablePlayers possiblePlayers hposs,
    ?_⟩
  by_cases h2 : 2 ≤ possiblePlayers.length
  · by_cases hkeep : keepsCurrentPlayer rosterState slot possiblePlayers = .ok false
    · rw [findBestPlayerForSlot_scan engine rosterState slot availablePlayers possiblePlayers
        hposs h2 hkeep]
      simp only [Except.ok.injEq, firstWithOtherSlotType_eq_none_iff]
      constructor
      · intro hall
        refine Or.inr ⟨h2, hkeep, ?_⟩
        intro p hp
        exact hall (p, rosterState.currentSlot p)
          ((engine.perm _ _).symm.subset (List.mem_map.2 ⟨p, hp, rfl⟩))
      · rintro (hnil | ⟨_, _, hall⟩)
        · rw [hnil] at h2
          simp at h2
        · intro x hx
          obtain ⟨p, hp, hpx⟩ := List.mem_map.1 ((engine.perm _ _).subset hx)
          subst hpx
          exact hall p hp
    · constructor
      · intro hnone
        exact absurd hnone (findBestPlayerForSlot_not_scan engine rosterState slot
          availablePlayers possiblePlayers hposs h2 hkeep)
      · rintro (hnil | ⟨_, hk, _⟩)
        · rw [hnil] at h2
          simp at h2
        · exact absurd hk hkeep
  · unfold findBestPlayerForSlot
    rw [hposs]
    match possiblePlayers, h2 with
    | [], _ => simp
    | [x], _ => simp
    | x :: y :: rest, h2 => simp at h2

/-- Witness for C16: for slot 1 of `crowdedGuards` both eligible players hold a point-guard
slot and `null` is returned. -/
theorem findBestPlayerForSlot_absent_iff_witness :
    findBestPlayerForSlot v8ArraySort crowdedGuards ⟨1, "PG"⟩ crowdedGuards.players
      = .ok none := by
  obtain ⟨possiblePlayers, hposs, _, hiff⟩ := findBestPlayerForSlot_absent_iff v8ArraySort
    crowdedGuards ⟨1, "PG"⟩ crowdedGuards.players (by decide)
  have hp : possiblePlayers = [examplePlayer 1 ["PG"] "DTD" (some "BOS"),
      examplePlayer 2 ["PG"] "HEALTHY" (some "BOS")] := by
    have h : filterMatching crowdedGuards.players ⟨1, "PG"⟩
        = .ok [examplePlayer 1 ["PG"] "DTD" (some "BOS"),
          examplePlayer 2 ["PG"] "HEALTHY" (some "BOS")] := rfl
    rw [h] at hposs
    simp only [Except.ok.injEq] at hposs
    exact hposs.symm
  subst hp
  exact hiff.2 (Or.inr ⟨by decide, rfl, by decide⟩)

/-! ## Ties in health (C17) -/

/-- With a comparator that never answers a negative number, V8 finds that the whole array is
one ascending run. -/
theorem v8RunExtension_of_nonneg {α : Type} (comparefn : α → α → Int)
    (hcmp : ∀ a b, 0 ≤ comparefn a b) (previous : α) (xs : List α) :
    v8RunExtension comparefn false previous xs = xs.length := by
  induction xs generalizing previous with
  | nil => rfl
  | cons current rest ih =>
    have hnot : ¬ comparefn current previous < 0 := not_lt.2 (hcmp current previous)
    simp only [v8RunExtension, Bool.false_eq_true, if_false, hnot, ih current,
      List.length_cons]
    omega

/-- With a comparator that never answers a negative number, the sort of V8 leaves the array
as it is. -/
theorem v8Sort_of_nonneg {α : Type} (comparefn : α → α → Int)
    (hcmp : ∀ a b, 0 ≤ comparefn a b) (xs : List α) : v8Sort comparefn xs = xs := by
  unfold v8Sort
  split
  · rfl
  · match xs with
    | [] => rfl
    | [_] => rfl
    | x0 :: x1 :: rest =>
      have hnot : ¬ comparefn x1 x0 < 0 := not_lt.2 (hcmp x1 x0)
      have hrun : v8CountRunAndMakeAscending comparefn (x0 :: x1 :: rest)
          = (x0 :: x1 :: rest, (x0 :: x1 :: rest).length) := by
        simp only [v8CountRunAndMakeAscending, hnot, decide_False, Bool.false_eq_true,
          if_false, v8RunExtension_of_nonneg comparefn hcmp, List.length_cons]
        rw [Nat.add_comm]
      rw [hrun]
      simp only [List.take_length, List.drop_length, v8BinaryInsertionSort]

/-- The comparator made of `compareHealth` never answers a negative number. -/
theorem healthComparator_nonneg (a b : PlayerWithCurrentSlot) : 0 ≤ healthComparator a b := by
  unfold healthComparator
  split <;> decide

/-- Claim C17 fails on the code: in `tiedGuards` two healthy players are eligible for the empty
slot 1, the test of the stability rule answers `false` and neither player holds a slot, so the
ranked scan decides.  The comparator answers 1 for two players of the same health, the
insertion sort of V8 before version 7.0 shifts on that answer and puts player 2 first, and
`findBestPlayerForSlot` returns player 2, though player 1 is eligible, has the same health,
holds no slot and comes before it in the pool.  The sort of V8 since version 7.0 leaves every
array as it is under this comparator and returns player 1: the order of ties is the order of
the engine. -/
theorem findBestPlayerForSlot_reverses_ties :
    filterMatching tiedGuards.players ⟨1, "PG"⟩ = .ok tiedGuards.players ∧
      keepsCurrentPlayer tiedGuards ⟨1, "PG"⟩ tiedGuards.players = .ok false ∧
      (∀ p ∈ tiedGuards.players, tiedGuards.currentSlot p = none) ∧
      tiedGuards.players = [] ++ examplePlayer 1 ["PG"] "HEALTHY" (some "BOS") ::
        [examplePlayer 2 ["PG"] "HEALTHY" (some "BOS")] ∧
      (examplePlayer 1 ["PG"] "HEALTHY" (some "BOS")).health
        = (examplePlayer 2 ["PG"] "HEALTHY" (some "BOS")).health ∧
      healthComparator (examplePlayer 1 ["PG"] "HEALTHY" (some "BOS"), none)
        (examplePlayer 2 ["PG"] "HEALTHY" (some "BOS"), none) = 1 ∧
      insertionArraySort.sort healthComparator
          (tiedGuards.players.map fun p => (p, tiedGuards.currentSlot p))
        = [(examplePlayer 2 ["PG"] "HEALTHY" (some "BOS"), none),
            (examplePlayer 1 ["PG"] "HEALTHY" (some "BOS"), none)] ∧
      findBestPlayerForSlot insertionArraySort tiedGuards ⟨1, "PG"⟩ tiedGuards.players
        = .ok (some (examplePlayer 2 ["PG"] "HEALTHY" (some "BOS"))) ∧
      (∀ xs, v8ArraySort.sort healthComparator xs = xs) ∧
      findBestPlayerForSlot v8ArraySort tiedGuards ⟨1, "PG"⟩ tiedGuards.players
        = .ok (some (examplePlayer 1 ["PG"] "HEALTHY" (some "BOS"))) :=
  ⟨rfl, rfl, by decide, rfl, rfl, by decide, rfl, rfl,
    fun xs => v8Sort_of_nonneg healthComparator healthComparator_nonneg xs, rfl⟩

/-! ## The occupants of the output are playing (C18) -/

/-- The pass assigns to a slot `null` or a playing player of the player set, when the player
ids are unique, the occupants of the input are players of the set and so are the available
players, all of them playing. -/
theorem assignSlots_occupants_playing (engine : ArraySort) (rosterState : RosterState)
    (hids : UniquePlayerIds rosterState) (hocc : OccupantsArePlayers rosterState)
    (slots : List ActivePlayerSlot) (availablePlayers : List Player)
    (newRosterState out : RosterState)
    (havail : ∀ q ∈ availablePlayers, q ∈ rosterState.players ∧ q.isPlaying = true)
    (h : assignSlots engine rosterState slots availablePlayers newRosterState = .ok out) :
    ∀ s ∈ slots, out.currentPlayer s = some none ∨
      ∃ p, out.currentPlayer s = some (some p) ∧ p ∈ rosterState.players ∧
        p.isPlaying = true := by
  induction slots generalizing availablePlayers newRosterState with
  | nil => intro s hs; simp at hs
  | cons slot rest ih =>
    obtain ⟨chosen, remaining, hstep, hrest⟩ := assignSlots_cons_ok _ _ _ _ _ _ _ h
    have hchosen : (chosen = none ∨
        ∃ p, chosen = some p ∧ p ∈ rosterState.players ∧ p.isPlaying = true) ∧
        ∀ q ∈ remaining, q ∈ rosterState.players ∧ q.isPlaying = true := by
      rcases hstep with ⟨_, hrem, hch⟩ | ⟨c, hbest, hch, hrem⟩
      · subst hrem
        refine ⟨?_, havail⟩
        rcases hch with hch | ⟨cur, hch, _, hcur⟩
        · exact Or.inl hch
        · exact Or.inr ⟨cur, hch, havail cur hcur⟩
      · subst hrem
        refine ⟨Or.inr ⟨c, hch, ?_⟩, fun q hq => havail q (removeChosen_subset _ _ _ hq)⟩
        rcases findBestPlayerForSlot_some _ _ _ _ _ hbest with
          ⟨hc, _⟩ | ⟨hcur, q, hq, _, hqid⟩
        · exact havail c hc
        · have hcp : c ∈ rosterState.players :=
            hocc c (mem_filterMap_of_mapGet _ _ _ hcur)
          have hqc : q = c := List.inj_on_of_nodup_map hids (havail q hq).1 hcp hqid
          rw [← hqc]
          exact havail q hq
    intro s hs
    by_cases hin : s.slotId ∈ rest.map fun t => t.slotId
    · obtain ⟨t, ht, hts⟩ := List.mem_map.1 hin
      have := ih remaining _ hchosen.2 hrest t ht
      unfold RosterState.currentPlayer at this ⊢
      rw [← hts]
      exact this
    · have hs2 : s = slot := by
        rcases List.mem_cons.1 hs with h1 | h1
        · exact h1
        · exact absurd (List.mem_map.2 ⟨s, h1, rfl⟩) hin
      subst hs2
      rw [assignSlots_head _ _ _ _ _ _ _ _ hrest hin]
      rcases hchosen.1 with hch | ⟨p, hch, hp⟩
      · exact Or.inl (by rw [hch])
      · exact Or.inr ⟨p, by rw [hch], hp⟩

/-- With no available player the pass raises no error. -/
theorem assignSlots_empty_pool (engine : ArraySort) (rosterState : RosterState)
    (slots : List ActivePlayerSlot) (newRosterState : RosterState) :
    ∃ out, assignSlots engine rosterState slots [] newRosterState = .ok out := by
  induction slots generalizing newRosterState with
  | nil => exact ⟨newRosterState, rfl⟩
  | cons slot rest ih =>
    have hbest : findBestPlayerForSlot engine rosterState slot [] = .ok none := rfl
    rw [assignSlots]
    simp only [hbest]
    exact ih _

/-- Claim C18: for every roster state with unique player ids whose mapping occupants are all
members of the player set, every slot of the slot sequence is, in the output of
`calculateNewRoster`, unoccupied or occupied by a member of the player set with `isPlaying`
true; and with zero players `calculateNewRoster` returns and every slot of the output is
unoccupied. -/
theorem calculateNewRoster_occupants_playing (engine : ArraySort) (rosterState : RosterState)
    (hids : UniquePlayerIds rosterState) (hocc : OccupantsArePlayers rosterState) :
    (∀ out, calculateNewRoster engine rosterState = .ok out →
        ∀ s ∈ rosterState.slots, out.currentPlayer s = some none ∨
          ∃ p, out.currentPlayer s = some (some p) ∧ p ∈ rosterState.players ∧
            p.isPlaying = true) ∧
      (rosterState.players = [] →
        ∃ out, calculateNewRoster engine rosterState = .ok out ∧
          ∀ s ∈ rosterState.slots, out.currentPlayer s = some none) := by
  have hmain : ∀ out, calculateNewRoster engine rosterState = .ok out →
      ∀ s ∈ rosterState.slots, out.currentPlayer s = some none ∨
        ∃ p, out.currentPlayer s = some (some p) ∧ p ∈ rosterState.players ∧
          p.isPlaying = true := by
    intro out hout
    exact assignSlots_occupants_playing engine rosterState hids hocc rosterState.slots _ _ out
      (fun q hq => List.mem_filter.1 hq) hout
  refine ⟨hmain, ?_⟩
  intro hnil
  have hex : ∃ out, calculateNewRoster engine rosterState = .ok out := by
    unfold calculateNewRoster
    rw [hnil]
    exact assignSlots_empty_pool engine rosterState rosterState.slots _
  obtain ⟨out, hout⟩ := hex
  refine ⟨out, hout, ?_⟩
  intro s hs
  rcases hmain out hout s hs with h | ⟨p, _, hp, _⟩
  · exact h
  · rw [hnil] at hp
    exact absurd hp (List.not_mem_nil _)

/-- Witness for C18: the output of `benchedGuard`, whose only player has no game, has nobody in
slot 1. -/
theorem calculateNewRoster_occupants_playing_witness :
    RosterState.currentPlayer { benchedGuard with mapping := [(1, none)] } ⟨1, "PG"⟩
        = some none ∨
      ∃ p, RosterState.currentPlayer { benchedGuard with mapping := [(1, none)] } ⟨1, "PG"⟩
          = some (some p) ∧ p ∈ benchedGuard.players ∧ p.isPlaying = true :=
  (calculateNewRoster_occupants_playing v8ArraySort benchedGuard (by decide) (by decide)).1
    { benchedGuard with mapping := [(1, none)] } rfl ⟨1, "PG"⟩ (by decide)

/-! ## A roster that the pass leaves as it is (C19) -/

/-- Setting a key to the value it has leaves the mapping as it is. -/
theorem mapSet_of_mapGet (m : List (Nat × Option Player)) (key : Nat)
    (value : Option Player) (h : mapGet m key = some value) : mapSet m key value = m := by
  induction m with
  | nil => simp [mapGet] at h
  | cons e rest ih =>
    obtain ⟨k, v⟩ := e
    by_cases hk : k = key
    · simp only [mapGet, hk, if_true, Option.some.injEq] at h
      simp [mapSet, hk, h]
    · simp only [mapGet, hk, if_false] at h
      simp [mapSet, hk, ih h]

/-- When the player ids held by a mapping are distinct, two keys hold players with different
ids. -/
theorem occupants_distinct (m : List (Nat × Option Player))
    (hone : ((m.filterMap fun e => e.2).map fun p => p.playerId).Nodup)
    (key1 key2 : Nat) (p q : Player) (h1 : mapGet m key1 = some (some p))
    (h2 : mapGet m key2 = some (some q)) (hne : key1 ≠ key2) : p.playerId ≠ q.playerId := by
  induction m with
  | nil => simp [mapGet] at h1
  | cons e rest ih =>
    obtain ⟨k, v⟩ := e
    have hrestNodup : ((rest.filterMap fun e => e.2).map fun p => p.playerId).Nodup := by
      cases v with
      | none => simpa [List.filterMap_cons] using hone
      | some r =>
        simp only [List.filterMap_cons, List.map_cons, List.nodup_cons] at hone
        exact hone.2
    by_cases hk1 : k = key1
    · have hk2 : ¬ k = key2 := fun h => hne (hk1.symm.trans h)
      simp only [mapGet, hk1, if_true, Option.some.injEq] at h1
      simp only [mapGet, hk2, if_false] at h2
      subst h1
      simp only [List.filterMap_cons, List.map_cons, List.nodup_cons] at hone
      intro heq
      apply hone.1
      rw [heq]
      exact List.mem_map.2 ⟨q, mem_filterMap_of_mapGet _ _ _ h2, rfl⟩
    · simp only [mapGet, hk1, if_false] at h1
      by_cases hk2 : k = key2
      · simp only [mapGet, hk2, if_true, Option.some.injEq] at h2
        subst h2
        simp only [List.filterMap_cons, List.map_cons, List.nodup_cons] at hone
        intro heq
        apply hone.1
        rw [← heq]
        exact List.mem_map.2 ⟨p, mem_filterMap_of_mapGet _ _ _ h1, rfl⟩
      · simp only [mapGet, hk2, if_false] at h2
        exact ih hrestNodup h1 h2

/-- With room for everyone, when every slot that is left holds an eligible player that is
still available, different for slots with different ids, and the new state still has the
entries of the input for these slots, the pass returns the new state as it is. -/
theorem assignSlots_fixed (engine : ArraySort) (rosterState : RosterState)
    (hroom : rosterState.hasRoomForEveryone = true)
    (hdistinct : ∀ s t p q, rosterState.currentPlayer s = some (some p) →
      rosterState.currentPlayer t = some (some q) → s.slotId ≠ t.slotId → p ≠ q)
    (slots : List ActivePlayerSlot) (availablePlayers : List Player)
    (newRosterState : RosterState)
    (hnodup : (slots.map fun s => s.slotId).Nodup)
    (hpos : ∀ p ∈ availablePlayers, ∀ position ∈ p.positions,
      position ∈ recognisedPositions)
    (hocc : ∀ s ∈ slots, ∃ p, rosterState.currentPlayer s = some (some p) ∧
      p ∈ availablePlayers ∧ playerMatchesSlot p s = .ok true)
    (hst : ∀ s ∈ slots, mapGet newRosterState.mapping s.slotId
      = rosterState.currentPlayer s) :
    assignSlots engine rosterState slots availablePlayers newRosterState
      = .ok newRosterState := by
  induction slots generalizing availablePlayers with
  | nil => rfl
  | cons slot rest ih =>
    obtain ⟨p, hcur, hp, helig⟩ := hocc slot (List.mem_cons_self _ _)
    obtain ⟨possiblePlayers, hposs⟩ := filterMatching_ok availablePlayers slot hpos
    have hmem := (filterMatching_mem slot availablePlayers possiblePlayers hposs p).2
      ⟨hp, helig⟩
    obtain ⟨c, hc, _, hobj⟩ := findBestPlayerForSlot_of_incumbent engine rosterState slot
      availablePlayers possiblePlayers p hposs hcur (List.mem_map.2 ⟨p, hmem, rfl⟩)
      (Or.inl hroom)
    rw [hobj (Or.inr hmem)] at hc
    have hsame : newRosterState.assignPlayer (some p) slot = newRosterState := by
      unfold RosterState.assignPlayer
      rw [mapSet_of_mapGet _ _ _ ((hst slot (List.mem_cons_self _ _)).trans hcur)]
    simp only [List.map_cons, List.nodup_cons] at hnodup
    rw [assignSlots]
    simp only [hc]
    rw [hsame]
    apply ih (removeChosen availablePlayers p) hnodup.2
    · intro q hq
      exact hpos q (removeChosen_subset _ _ _ hq)
    · intro s hs
      obtain ⟨q, hqcur, hq, hqelig⟩ := hocc s (List.mem_cons_of_mem _ hs)
      refine ⟨q, hqcur, mem_removeChosen _ _ _ hp hq ?_, hqelig⟩
      apply hdistinct s slot q p hqcur hcur
      intro hid
      apply hnodup.1
      rw [← hid]
      exact List.mem_map.2 ⟨s, hs, rfl⟩
    · intro s hs
      exact hst s (List.mem_cons_of_mem _ hs)

/-- Claim C19, as stated, fails: `unknownSecondPosition` has unique slot ids and player ids
and room for everyone, each slot is held by a playing member of the player set that is eligible
for it and no player holds two slots, and `calculateNewRoster` raises the error
`Unknown position type: `: the holder of the point-guard slot has the unknown code `XX` after
`PG`, which the center slot reads. -/
theorem calculateNewRoster_unknown_position_raises :
    UniqueSlotIds unknownSecondPosition ∧ UniquePlayerIds unknownSecondPosition ∧
      unknownSecondPosition.hasRoomForEveryone = true ∧
      NoPlayerInTwoSlots unknownSecondPosition ∧
      unknownSecondPosition.currentPlayer ⟨1, "C"⟩
        = some (some (examplePlayer 1 ["C"] "HEALTHY" (some "BOS"))) ∧
      playerMatchesSlot (examplePlayer 1 ["C"] "HEALTHY" (some "BOS")) ⟨1, "C"⟩
        = .ok true ∧
      unknownSecondPosition.currentPlayer ⟨2, "PG"⟩
        = some (some (examplePlayer 2 ["PG", "XX"] "HEALTHY" (some "BOS"))) ∧
      playerMatchesSlot (examplePlayer 2 ["PG", "XX"] "HEALTHY" (some "BOS")) ⟨2, "PG"⟩
        = .ok true ∧
      (∀ p ∈ unknownSecondPosition.occupants,
        p ∈ unknownSecondPosition.players ∧ p.isPlaying = true) ∧
      calculateNewRoster v8ArraySort unknownSecondPosition
        = .error (.error "Unknown position type: ") :=
  ⟨by decide, by decide, rfl, by decide, rfl, rfl, rfl, rfl, by decide, rfl⟩

/-- Claim C19, amended: for every roster state with unique slot ids and unique player ids
whose players all have recognised positions, in which `hasRoomForEveryone` holds and every slot
is occupied by a member of the player set that is playing and eligible for that slot, with no
player occupying two slots, `calculateNewRoster` returns the input state: the mapping of the
output is the mapping of the input. -/
theorem calculateNewRoster_fixed_point (engine : ArraySort) (rosterState : RosterState)
    (hslots : UniqueSlotIds rosterState) (_hids : UniquePlayerIds rosterState)
    (hpos : RecognisedPositions rosterState)
    (hroom : rosterState.hasRoomForEveryone = true)
    (hocc : ∀ s ∈ rosterState.slots, ∃ p, rosterState.currentPlayer s = some (some p) ∧
      p ∈ rosterState.players ∧ p.isPlaying = true ∧ playerMatchesSlot p s = .ok true)
    (hone : NoPlayerInTwoSlots rosterState) :
    calculateNewRoster engine rosterState = .ok rosterState := by
  unfold calculateNewRoster
  have hfix := assignSlots_fixed engine rosterState hroom
    (fun s t p q hp hq hne heq =>
      occupants_distinct rosterState.mapping hone s.slotId t.slotId p q hp hq hne
        (by rw [heq]))
    rosterState.slots (rosterState.players.filter fun p => p.isPlaying)
    { slots := rosterState.slots, players := rosterState.players,
      mapping := rosterState.mapping }
    hslots
    (fun p hp => hpos p (List.mem_filter.1 hp).1)
    (fun s hs => by
      obtain ⟨p, hcur, hp, hplaying, helig⟩ := hocc s hs
      exact ⟨p, hcur, List.mem_filter.2 ⟨hp, hplaying⟩, helig⟩)
    (fun s _ => rfl)
  exact hfix

/-- Witness for C19: `roomyUtil`, two utility slots held by the two playing players, is
returned as it is. -/
theorem calculateNewRoster_fixed_point_witness :
    calculateNewRoster v8ArraySort roomyUtil = .ok roomyUtil :=
  calculateNewRoster_fixed_point v8ArraySort roomyUtil (by decide) (by decide) (by decide) rfl
    (by
      intro s hs
      simp only [roomyUtil, List.mem_cons, List.mem_singleton, List.not_mem_nil,
        or_false] at hs
      rcases hs with rfl | rfl
      · exact ⟨examplePlayer 1 ["PG"] "DTD" (some "BOS"), rfl, by decide, rfl, rfl⟩
      · exact ⟨examplePlayer 2 ["C"] "HEALTHY" (some "BOS"), rfl, by decide, rfl, rfl⟩)
    (by decide)

/-! ## Equivalent inputs (C13) -/

/-- Claim C13 fails on the code: `partialKeys` and `fullKeys` have the same slots and players,
`partialKeys.isEquivalentTo(fullKeys)` is `true` because only the entries of `partialKeys` are
compared, and whatever the sort of the engine the two outputs are not equivalent: slot 1 gets
player 1 from `partialKeys`, and `null` from `fullKeys`, where player 1 holds slot 2. -/
theorem calculateNewRoster_equivalent_inputs_differ (engine : ArraySort) :
    partialKeys.slots = fullKeys.slots ∧ partialKeys.players = fullKeys.players ∧
      partialKeys.isEquivalentTo fullKeys = true ∧
      calculateNewRoster engine partialKeys = .ok { partialKeys with
        mapping := [(1, some (examplePlayer 1 ["PG"] "HEALTHY" (some "BOS"))), (3, none),
          (2, some (examplePlayer 2 ["PG"] "HEALTHY" (some "BOS")))] } ∧
      calculateNewRoster engine fullKeys = .ok { fullKeys with
        mapping := [(1, none), (3, some (examplePlayer 2 ["PG"] "HEALTHY" (some "BOS"))),
          (2, some (examplePlayer 1 ["PG"] "HEALTHY" (some "BOS")))] } ∧
      RosterState.isEquivalentTo
        { partialKeys with
          mapping := [(1, some (examplePlayer 1 ["PG"] "HEALTHY" (some "BOS"))), (3, none),
            (2, some (examplePlayer 2 ["PG"] "HEALTHY" (some "BOS")))] }
        { fullKeys with
          mapping := [(1, none), (3, some (examplePlayer 2 ["PG"] "HEALTHY" (some "BOS"))),
            (2, some (examplePlayer 1 ["PG"] "HEALTHY" (some "BOS")))] } = false := by
  refine ⟨rfl, rfl, by decide, ?_, ?_, by decide⟩
  · have hscan : findBestPlayerForSlot engine partialKeys ⟨1, "PG"⟩
        (partialKeys.players.filter fun p => p.isPlaying)
          = .ok (firstWithOtherSlotType ⟨1, "PG"⟩ (engine.sort healthComparator
              [(examplePlayer 1 ["PG"] "HEALTHY" (some "BOS"), none),
               (examplePlayer 2 ["PG"] "HEALTHY" (some "BOS"), some ⟨3, "PG"⟩)])) := rfl
    have hfirst : findBestPlayerForSlot engine partialKeys ⟨1, "PG"⟩
        (partialKeys.players.filter fun p => p.isPlaying)
          = .ok (some (examplePlayer 1 ["PG"] "HEALTHY" (some "BOS"))) := by
      rw [hscan]
      cases hres : firstWithOtherSlotType ⟨1, "PG"⟩ (engine.sort healthComparator
          [(examplePlayer 1 ["PG"] "HEALTHY" (some "BOS"), none),
           (examplePlayer 2 ["PG"] "HEALTHY" (some "BOS"), some ⟨3, "PG"⟩)]) with
      | none =>
        exfalso
        obtain ⟨cs, hcs, _⟩ := (firstWithOtherSlotType_eq_none_iff _ _).1 hres
          (examplePlayer 1 ["PG"] "HEALTHY" (some "BOS"), none)
          ((engine.perm _ _).symm.subset (List.mem_cons_self _ _))
        simp at hcs
      | some c =>
        obtain ⟨cs, hmem, hfree⟩ := firstWithOtherSlotType_eq_some _ _ _ hres
        have hmem2 := (engine.perm _ _).subset hmem
        simp only [List.mem_cons, List.mem_singleton, List.not_mem_nil, or_false,
          Prod.mk.injEq] at hmem2
        rcases hmem2 with ⟨hc, _⟩ | ⟨_, hcs⟩
        · rw [hc]
        · exact absurd rfl (hfree ⟨3, "PG"⟩ hcs)
    show assignSlots engine partialKeys (⟨1, "PG"⟩ :: [⟨2, "PG"⟩, ⟨3, "PG"⟩])
      (partialKeys.players.filter fun p => p.isPlaying) _ = _
    rw [assignSlots]
    simp only [hfirst]
    rfl
  · have hscan : findBestPlayerForSlot engine fullKeys ⟨1, "PG"⟩
        (fullKeys.players.filter fun p => p.isPlaying)
          = .ok (firstWithOtherSlotType ⟨1, "PG"⟩ (engine.sort healthComparator
              [(examplePlayer 1 ["PG"] "HEALTHY" (some "BOS"), some ⟨2, "PG"⟩),
               (examplePlayer 2 ["PG"] "HEALTHY" (some "BOS"), some ⟨3, "PG"⟩)])) := rfl
    have hnone : findBestPlayerForSlot engine fullKeys ⟨1, "PG"⟩
        (fullKeys.players.filter fun p => p.isPlaying) = .ok none := by
      rw [hscan, (firstWithOtherSlotType_eq_none_iff _ _).2]
      intro x hx
      have hx2 := (engine.perm _ _).subset hx
      simp only [List.mem_cons, List.mem_singleton, List.not_mem_nil, or_false] at hx2
      rcases hx2 with rfl | rfl
      · exact ⟨_, rfl, rfl⟩
      · exact ⟨_, rfl, rfl⟩
    show assignSlots engine fullKeys (⟨1, "PG"⟩ :: [⟨2, "PG"⟩, ⟨3, "PG"⟩])
      (fullKeys.players.filter fun p => p.isPlaying) _ = _
    rw [assignSlots]
    simp only [hnone]
    rfl

end EspnAutopick
